import Mathlib

set_option maxHeartbeats 1000000

/-!
Verification development for the Budapest Metro construction rule engine
and scoring system (src/main.js).  The mutable browser state (the `state`
object, the per-line build states, the ownership map and the recorded round
results) is embedded as an explicit `GameState` record; JS `Set`s become
`Finset ℕ`, JS `Map`s become insertion-ordered association lists, and the
externally loaded station dataset is a `List Station` parameter.
-/

namespace BudapestMetro

/-- A grid point, as passed to the geometry helpers of section 3. -/
@[ext]
structure Pt where
  x : ℤ
  y : ℤ
deriving DecidableEq, Repr

/-- The cross-product helper inside segmentsIntersect (src/main.js line 190). -/
def cross (p q r : Pt) : ℤ :=
  (q.x - p.x) * (r.y - p.y) - (q.y - p.y) * (r.x - p.x)

/-- The bounding-box helper onSeg inside segmentsIntersect
(src/main.js lines 191-195): q lies within the box spanned by p and r. -/
def onSeg (p q r : Pt) : Bool :=
  decide (min p.x r.x ≤ q.x) && decide (q.x ≤ max p.x r.x) &&
  decide (min p.y r.y ≤ q.y) && decide (q.y ≤ max p.y r.y)

/-- segmentsIntersect (src/main.js lines 189-215): strict crossing by
orientation signs, then the four collinear bounding-box checks. -/
def segmentsIntersect (a1 a2 b1 b2 : Pt) : Bool :=
  let d1 := cross a1 a2 b1
  let d2 := cross a1 a2 b2
  let d3 := cross b1 b2 a1
  let d4 := cross b1 b2 a2
  (((decide (0 < d1) && decide (d2 < 0)) || (decide (d1 < 0) && decide (0 < d2))) &&
   ((decide (0 < d3) && decide (d4 < 0)) || (decide (d3 < 0) && decide (0 < d4))))
  || (decide (d1 = 0) && onSeg a1 b1 a2)
  || (decide (d2 = 0) && onSeg a1 b2 a2)
  || (decide (d3 = 0) && onSeg b1 a1 b2)
  || (decide (d4 = 0) && onSeg b1 a2 b2)

/-- A station record: the basic geometry fields (id, x, y, type) of the
`lastStations` entries merged with the metadata fields of stations.json
(train, side, district), defaulted exactly as getStationMeta does for a
station without metadata (src/main.js lines 130-136). -/
structure Station where
  id : ℕ
  x : ℤ
  y : ℤ
  type : String
  train : Bool := false
  side : Option String := none
  district : Option ℕ := none
deriving DecidableEq, Repr

/-- `stationById.get(id)` (src/main.js lines 122-125): lookup in the index
built from the station dataset. -/
def stationById (stations : List Station) (id : ℕ) : Option Station :=
  stations.find? (fun s => s.id == id)

/-- `stationAt.get(x + "," + y)` (src/main.js lines 122-125). -/
def stationAt (stations : List Station) (x y : ℤ) : Option Station :=
  stations.find? (fun s => s.x == x && s.y == y)

/-- isStraightOrDiag (src/main.js lines 168-172). -/
def isStraightOrDiag (a b : Station) : Bool :=
  let dx := (a.x - b.x).natAbs
  let dy := (a.y - b.y).natAbs
  (dx == 0) || (dy == 0) || (dx == dy)

/-- pathPassesThroughStation (src/main.js lines 175-186): walks unit steps
from a toward b and reports a station strictly between them.  The JS loop
runs until it reaches b; on the aligned pairs it is called with (canConnect
checks isStraightOrDiag first) the walk takes exactly
max |Δx| |Δy| steps, which bounds this total formulation. -/
def pathPassesThroughStation (stations : List Station) (a b : Station) : Bool :=
  let dx := Int.sign (b.x - a.x)
  let dy := Int.sign (b.y - a.y)
  let n := max (b.x - a.x).natAbs (b.y - a.y).natAbs
  (List.range n).any (fun i =>
    decide (0 < i) && (stationAt stations (a.x + (i : ℤ) * dx) (a.y + (i : ℤ) * dy)).isSome)

/-- A card: platform type ("center" or "side") and symbol (src/main.js 419-430). -/
structure Card where
  ptype : String
  sym : String
deriving DecidableEq, Repr

/-- A line configuration entry of LINES (src/main.js lines 314-319). -/
structure LineCfg where
  id : ℕ
  name : String
  color : String
  start : ℕ
deriving DecidableEq, Repr

/-- LINES (src/main.js lines 314-319). -/
def LINES : List LineCfg :=
  [⟨0, "M1", "#FFD800", 19⟩, ⟨1, "M2", "#E41F18", 28⟩,
   ⟨2, "M3", "#005CA5", 3⟩, ⟨3, "M4", "#4CA22F", 39⟩]

/-- STATION_TRANSFER_EXCEPTION (src/main.js line 25). -/
def STATION_TRANSFER_EXCEPTION : ℕ := 30

/-- A placed segment `{a, b}` (src/main.js line 653). -/
structure Seg where
  a : ℕ
  b : ℕ
deriving DecidableEq, Repr

/-- A per-line build state (src/main.js lines 436-437): placed segments in
insertion order, the open-endpoint set and the visited set. -/
structure LineState where
  segments : List Seg
  endpoints : Finset ℕ
  visited : Finset ℕ
deriving DecidableEq

/-- A recorded per-round score (src/main.js lines 395, 566). -/
structure RoundResult where
  lineId : ℕ
  PK : ℕ
  PM : ℕ
  PD : ℕ
  FP : ℕ
deriving DecidableEq, Repr

/-- The engine state: the round/card fields of the global `state` object
(src/main.js lines 321-337) together with the `lineStates` map (line 437),
the `stationOwner` map (line 398) and the `roundResults` list (line 395).
JS Maps are embedded as insertion-ordered association lists. -/
structure GameState where
  order : List ℕ
  roundIndex : ℕ
  deck : List Card
  drawsThisRound : ℕ
  centerCount : ℕ
  sideCount : ℕ
  currentCard : Option Card
  heldCard : Option Card
  buildUsedForThisCard : Bool
  roundComplete : Bool
  switchUsedThisRound : Bool
  lineStates : List (ℕ × LineState)
  stationOwner : List (ℕ × ℕ)
  roundResults : List RoundResult
deriving DecidableEq

/-- `lineStates.has(lid)`. -/
def lsHas (ls : List (ℕ × LineState)) (lid : ℕ) : Bool :=
  (ls.find? (fun p => p.1 == lid)).isSome

/-- `lineStates.get(lid)`. -/
def lsGet (ls : List (ℕ × LineState)) (lid : ℕ) : Option LineState :=
  (ls.find? (fun p => p.1 == lid)).map Prod.snd

/-- Mutation of the line state object retrieved from the map (JS mutates the
entry in place; keys are unique, so updating the first match is faithful). -/
def lsUpdate : List (ℕ × LineState) → ℕ → (LineState → LineState) → List (ℕ × LineState)
  | [], _, _ => []
  | p :: rest, lid, f =>
    if p.1 == lid then (p.1, f p.2) :: rest else p :: lsUpdate rest lid f

/-- `stationOwner.get(id)`. -/
def ownerGet (ow : List (ℕ × ℕ)) (id : ℕ) : Option ℕ :=
  (ow.find? (fun p => p.1 == id)).map Prod.snd

/-- `stationOwner.has(id)`. -/
def ownerHas (ow : List (ℕ × ℕ)) (id : ℕ) : Bool :=
  (ow.find? (fun p => p.1 == id)).isSome

/-- `stationOwner.set(id, v)`: replace the value if the key exists, else
append (JS Map insertion semantics). -/
def ownerSet : List (ℕ × ℕ) → ℕ → ℕ → List (ℕ × ℕ)
  | [], id, v => [(id, v)]
  | p :: rest, id, v =>
    if p.1 == id then (id, v) :: rest else p :: ownerSet rest id v

/-- The endpoint toggle inside addSegment (src/main.js line 656):
`set.has(v) ? set.delete(v) : set.add(v)`. -/
def toggle (s : Finset ℕ) (v : ℕ) : Finset ℕ :=
  if v ∈ s then s.erase v else insert v s

/-- The lazily created build state of ensureLineState (src/main.js 442-452):
empty segments, empty endpoints, visited seeded with the start station. -/
def initLS (startId : ℕ) : LineState :=
  ⟨[], ∅, {startId}⟩

/-- stationMatchesCard (src/main.js lines 498-505). -/
def stationMatchesCard (card : Option Card) (target : Station) : Bool :=
  match card with
  | none => false
  | some c =>
    if target.id == STATION_TRANSFER_EXCEPTION then true
    else if c.sym == "Joker" || target.type == "?" then true
    else target.type == c.sym

/-- The transfer allowance in canConnect (src/main.js lines 589-590). -/
def isTransferAllowed (startId id : ℕ) : Bool :=
  id == STATION_TRANSFER_EXCEPTION || id == startId

/-- The ownership rejection test of canConnect (src/main.js lines 591-594):
an owner entry exists, belongs to another line and the station is neither
the transfer exception nor the current line's start. -/
def ownerBlocks (ow : List (ℕ × ℕ)) (lineId startId id : ℕ) : Bool :=
  match ownerGet ow id with
  | none => false
  | some o => !(o == lineId) && !(isTransferAllowed startId id)

/-- The duplicate-segment scan of canConnect (src/main.js lines 613-623):
no segment of any line connects the same unordered pair. -/
def noDuplicateSeg (ls : List (ℕ × LineState)) (fromId toId : ℕ) : Bool :=
  ls.all (fun p => p.2.segments.all (fun s =>
    !((s.a == fromId && s.b == toId) || (s.a == toId && s.b == fromId))))

/-- The crossing scan of canConnect (src/main.js lines 625-642): every
existing segment either does not intersect the proposed one or shares a
station id with it.  (Ids of placed segments always resolve in reachable
states; an unresolvable endpoint is skipped.) -/
def noBadCrossing (stations : List Station) (ls : List (ℕ × LineState))
    (A B : Station) (fromId toId : ℕ) : Bool :=
  let a1 : Pt := ⟨A.x, A.y⟩
  let a2 : Pt := ⟨B.x, B.y⟩
  ls.all (fun p => p.2.segments.all (fun s =>
    match stationById stations s.a, stationById stations s.b with
    | some C, some D =>
      !(segmentsIntersect a1 a2 ⟨C.x, C.y⟩ ⟨D.x, D.y⟩) ||
      (fromId == s.a || fromId == s.b || toId == s.a || toId == s.b)
    | _, _ => true))

/-- The pure accept/reject decision of canConnect (src/main.js lines
580-648), evaluated after the ensureLineState call, with the checks in the
source's short-circuit order. -/
def canConnectB (stations : List Station) (g : GameState) (line : LineCfg)
    (LS : LineState) (fromId toId : ℕ) : Bool :=
  match stationById stations fromId, stationById stations toId with
  | some A, some B =>
    !(fromId == toId) &&
    (!(ownerBlocks g.stationOwner line.id line.start fromId) &&
     (!(ownerBlocks g.stationOwner line.id line.start toId) &&
      (isStraightOrDiag A B &&
       ((if LS.segments.isEmpty then fromId == line.start
         else decide (fromId ∈ LS.endpoints)) &&
        (stationMatchesCard g.currentCard B &&
         (!(pathPassesThroughStation stations A B) &&
          (noDuplicateSeg g.lineStates fromId toId &&
           (noBadCrossing stations g.lineStates A B fromId toId &&
            !(decide (toId ∈ LS.visited))))))))))
  | _, _ => false

/-- `state.order[state.roundIndex]` (src/main.js line 581). -/
def currentLineId (g : GameState) : Option ℕ :=
  g.order.get? g.roundIndex

/-- currentLine (src/main.js lines 439-441). -/
def currentLineCfg (g : GameState) : Option LineCfg :=
  (currentLineId g).bind (fun lid => LINES.find? (fun l => l.id == lid))

/-- ensureLineState (src/main.js lines 442-452) as a state transformer: it
creates the current line's build state when absent (a mutation of the
lineStates map) and otherwise leaves the state alone. -/
def ensureStates (g : GameState) (lid startId : ℕ) : GameState :=
  if lsHas g.lineStates lid then g
  else { g with lineStates := g.lineStates ++ [(lid, initLS startId)] }

/-- canConnect (src/main.js lines 580-648) including its internal
ensureLineState call: returns the boolean verdict together with the state
after the call.  `none` models the crash on a missing current line. -/
def canConnectRun (stations : List Station) (g : GameState) (fromId toId : ℕ) :
    Option (Bool × GameState) :=
  match currentLineCfg g with
  | none => none
  | some line =>
    let g1 := ensureStates g line.id line.start
    let LS := (lsGet g1.lineStates line.id).getD (initLS line.start)
    some (canConnectB stations g1 line LS fromId toId, g1)

/-- The per-line part of addSegment (src/main.js lines 653-662): append the
segment, toggle both endpoint memberships, add both stations to visited. -/
def LineState.addSeg (LS : LineState) (fromId toId : ℕ) : LineState :=
  { segments := LS.segments ++ [⟨fromId, toId⟩],
    endpoints := toggle (toggle LS.endpoints fromId) toId,
    visited := insert toId (insert fromId LS.visited) }

/-- The ownership assignment of addSegment (src/main.js lines 664-675) for
one station: skipped for the transfer-exception station; the line's own
start station is always (re)claimed, other stations only on first claim. -/
def ownerAssign (ow : List (ℕ × ℕ)) (id startId lineId : ℕ) : List (ℕ × ℕ) :=
  if id == STATION_TRANSFER_EXCEPTION then ow
  else if id == startId || !(ownerHas ow id) then ownerSet ow id lineId
  else ow

/-- addSegment (src/main.js lines 650-679) including its internal
ensureLineState call; the trailing drawSegments/updatePPView calls only
redraw and do not mutate engine state. -/
def addSegmentRun (g : GameState) (fromId toId : ℕ) : Option GameState :=
  match currentLineCfg g with
  | none => none
  | some line =>
    let g1 := ensureStates g line.id line.start
    let ls2 := lsUpdate g1.lineStates line.id (fun LS => LS.addSeg fromId toId)
    let ow1 := ownerAssign g1.stationOwner fromId line.start line.id
    let ow2 := ownerAssign ow1 toId line.start line.id
    some { g1 with lineStates := ls2, stationOwner := ow2 }

/-- The fixed 10-card deck contents in the build order of buildDeck
(src/main.js lines 419-430); the shuffle makes any permutation of it a
possible fresh deck. -/
def baseDeck : List Card :=
  ["center", "side"].flatMap (fun pt => ["A", "B", "C", "D", "Joker"].map (Card.mk pt))

/-- A possible output of buildDeck: some shuffle of the 10 base cards. -/
def IsDeck (d : List Card) : Prop :=
  d.Perm baseDeck

/-- The round-ending condition of updateRoundEndingState (src/main.js lines
775-789): either platform-type count at 5, or 8 total draws. -/
def roundEndCond (g : GameState) : Bool :=
  (decide (5 ≤ g.centerCount) || decide (5 ≤ g.sideCount)) || decide (8 ≤ g.drawsThisRound)

/-- updateRoundEndingState (src/main.js lines 775-789), engine part: set or
clear roundComplete from the counters (the rest only toggles buttons). -/
def updateRoundEnding (g : GameState) : GameState :=
  { g with roundComplete := roundEndCond g }

/-- drawCard (src/main.js lines 791-809): no-op once the round is complete;
otherwise substitute a fresh deck if empty, pop the last card, bump the
draw and platform-type counters, clear the build-used flag and re-evaluate
the round-ending condition.  `none` models the crash when even the fresh
deck is empty (buildDeck always returns 10 cards). -/
def drawCard (g : GameState) (fresh : List Card) : Option GameState :=
  if g.roundComplete then some g
  else
    match (if g.deck.isEmpty then fresh else g.deck).getLast? with
    | none => none
    | some c =>
      some (updateRoundEnding
        { g with
          deck := (if g.deck.isEmpty then fresh else g.deck).dropLast,
          currentCard := some c,
          drawsThisRound := g.drawsThisRound + 1,
          buildUsedForThisCard := false,
          centerCount := if c.ptype == "center" then g.centerCount + 1 else g.centerCount,
          sideCount := if c.ptype == "side" then g.sideCount + 1 else g.sideCount })

/-- switchCard (src/main.js lines 921-939): no-op without an active card,
after a build with this card, or after the switch was already used this
round; otherwise replace the current card by a fresh pop without touching
any draw or platform-type counter. -/
def switchCard (g : GameState) (fresh : List Card) : Option GameState :=
  if g.currentCard.isNone then some g
  else if g.buildUsedForThisCard then some g
  else if g.switchUsedThisRound then some g
  else
    match (if g.deck.isEmpty then fresh else g.deck).getLast? with
    | none => none
    | some c =>
      some (updateRoundEnding
        { g with
          deck := (if g.deck.isEmpty then fresh else g.deck).dropLast,
          currentCard := some c,
          switchUsedThisRound := true })

/-- District metadata of a station, as read by computeCurrentRoundScore. -/
def districtOf (stations : List Station) (sid : ℕ) : Option ℕ :=
  (stationById stations sid).bind Station.district

/-- River-bank metadata of a station. -/
def sideOf (stations : List Station) (sid : ℕ) : Option String :=
  (stationById stations sid).bind Station.side

/-- `districtCounts.set(d, (districtCounts.get(d) || 0) + 1)`
(src/main.js line 551) on the association-list embedding of the Map. -/
def bump : List (ℕ × ℕ) → ℕ → List (ℕ × ℕ)
  | [], d => [(d, 1)]
  | p :: rest, d =>
    if p.1 == d then (p.1, p.2 + 1) :: rest else p :: bump rest d

/-- One iteration of the district-counting loop of
computeCurrentRoundScore (src/main.js lines 547-552): stations without
district metadata are skipped, others bump their district's counter. -/
def districtStep (stations : List Station) (m : List (ℕ × ℕ)) (sid : ℕ) : List (ℕ × ℕ) :=
  match districtOf stations sid with
  | none => m
  | some d => bump m d

/-- The district-counting loop of computeCurrentRoundScore (src/main.js
lines 546-552) over an enumeration of the visited set. -/
def districtCounts (stations : List Station) (l : List ℕ) : List (ℕ × ℕ) :=
  l.foldl (districtStep stations) []

/-- The Danube-crossing test of computeCurrentRoundScore (src/main.js lines
558-563): both endpoint stations resolve, carry river-bank metadata, and
the banks differ. -/
def crossesRiver (stations : List Station) (s : Seg) : Bool :=
  match sideOf stations s.a, sideOf stations s.b with
  | some x, some y => !(x == y)
  | _, _ => false

/-- computeCurrentRoundScore (src/main.js lines 540-574), pure part: the
round result for a line build state.  The JS code iterates the visited Set
in insertion order; the counts are order-independent, so the sorted
enumeration of the Finset is used. -/
def computeRoundScore (stations : List Station) (lid : ℕ) (LS : LineState) : RoundResult :=
  let counts := districtCounts stations (LS.visited.sort (· ≤ ·))
  let PK := counts.length
  let PM := if counts.isEmpty then 0 else (counts.map Prod.snd).foldr max 0
  let PD := LS.segments.countP (fun s => crossesRiver stations s)
  ⟨lid, PK, PM, PD, PK * PM + PD⟩

/-- The train test of updatePPView: `meta && meta.train`. -/
def isTrainStation (stations : List Station) (sid : ℕ) : Bool :=
  match stationById stations sid with
  | some st => st.train
  | none => false

/-- The visited-train-station accumulation of updatePPView (src/main.js
lines 515-531). -/
def trainVisited (stations : List Station) (ls : List (ℕ × LineState)) : Finset ℕ :=
  ls.foldl (fun acc p =>
    acc ∪ p.2.visited.filter (fun sid => isTrainStation stations sid)) ∅

/-- The key set of the stationLines map built by finishGame (src/main.js
lines 818-824): every station visited by some line. -/
def touchedStations (ls : List (ℕ × LineState)) : Finset ℕ :=
  ls.foldl (fun acc p => acc ∪ p.2.visited) ∅

/-- The per-station line set of the stationLines map built by finishGame
(src/main.js lines 818-824). -/
def linesVisitingF (ls : List (ℕ × LineState)) (sid : ℕ) : Finset ℕ :=
  ls.foldl (fun acc p => if sid ∈ p.2.visited then insert p.1 acc else acc) ∅

/-- The final score computed by finishGame (src/main.js lines 811-838):
sum of recorded FPs, plus PP from updatePPView, plus the junction bonuses
accumulated from the per-station distinct-line counts. -/
def finishScore (stations : List Station) (g : GameState) : ℕ :=
  let PP := (trainVisited stations g.lineStates).card
  let P2 := ∑ sid in touchedStations g.lineStates,
    if (linesVisitingF g.lineStates sid).card = 2 then 1 else 0
  let P3 := ∑ sid in touchedStations g.lineStates,
    if (linesVisitingF g.lineStates sid).card = 3 then 1 else 0
  let P4 := ∑ sid in touchedStations g.lineStates,
    if 4 ≤ (linesVisitingF g.lineStates sid).card then 1 else 0
  let sumFP := (g.roundResults.map RoundResult.FP).sum
  sumFP + PP + 2 * P2 + 5 * P3 + 9 * P4

/-- The scoring-and-advance prefix of nextRound (src/main.js lines 887-891):
computeCurrentRoundScore (which calls ensureLineState) records the round
result, then the round index advances. -/
def afterScore (stations : List Station) (g : GameState) (line : LineCfg) : GameState :=
  let g1 := ensureStates g line.id line.start
  let LS := (lsGet g1.lineStates line.id).getD (initLS line.start)
  { g1 with
    roundResults := g1.roundResults ++ [computeRoundScore stations line.id LS],
    roundIndex := g1.roundIndex + 1 }

/-- The per-round reset suffix of nextRound (src/main.js lines 897-905). -/
def afterRoundReset (g : GameState) (fresh : List Card) : GameState :=
  { g with
    deck := fresh, drawsThisRound := 0, centerCount := 0, sideCount := 0,
    currentCard := none, buildUsedForThisCard := false, roundComplete := false,
    switchUsedThisRound := false, heldCard := none }

/-- nextRound (src/main.js lines 887-918): record the finished line's score,
advance the round index; once past the last line, finishGame only reports
(no engine mutation); otherwise reset the deck, counters, cards and flags. -/
def nextRoundRun (stations : List Station) (g : GameState) (fresh : List Card) :
    Option GameState :=
  match currentLineCfg g with
  | none => none
  | some line =>
    if (afterScore stations g line).order.length ≤ (afterScore stations g line).roundIndex
    then some (afterScore stations g line)
    else some (afterRoundReset (afterScore stations g line) fresh)

/-- The build attempt of the click handler (src/main.js lines 1034-1056):
requires an active, not-yet-used card; runs canConnect (whose internal
ensureLineState persists even on reject); on acceptance runs addSegment,
marks the card used, and auto-advances the round when it was complete. -/
def buildStep (stations : List Station) (g : GameState) (fromId toId : ℕ)
    (fresh : List Card) : Option GameState :=
  if g.currentCard.isNone then some g
  else if g.buildUsedForThisCard then some g
  else
    match canConnectRun stations g fromId toId with
    | none => none
    | some (ok, g1) =>
      if ok then
        match addSegmentRun g1 fromId toId with
        | none => none
        | some g2 =>
          if ({ g2 with buildUsedForThisCard := true } : GameState).roundComplete
          then nextRoundRun stations { g2 with buildUsedForThisCard := true } fresh
          else some { g2 with buildUsedForThisCard := true }
      else some g1

/-- The engine state produced by startGame (src/main.js lines 744-773):
resetGameState (lines 685-742) followed by installing the shuffled line
order and a fresh deck. -/
def startGameState (order : List ℕ) (deck : List Card) : GameState :=
  { order := order, roundIndex := 0, deck := deck,
    drawsThisRound := 0, centerCount := 0, sideCount := 0,
    currentCard := none, heldCard := none,
    buildUsedForThisCard := false, roundComplete := false, switchUsedThisRound := false,
    lineStates := [], stationOwner := [], roundResults := [] }

/-- The engine state after resetGameState alone (src/main.js lines 685-742),
as invoked from the main-menu button. -/
def resetState : GameState :=
  startGameState [] []

/-- Reachable engine states: startGame with a shuffled order and deck, then
any sequence of draw, switch, build-attempt, explicit end-round and reset
commands (the inward command surface of the engine). -/
inductive Reach (stations : List Station) : GameState → Prop where
  | start (order : List ℕ) (deck : List Card) :
      order.Perm [0, 1, 2, 3] → IsDeck deck →
      Reach stations (startGameState order deck)
  | draw {g g' : GameState} {fresh : List Card} :
      Reach stations g → IsDeck fresh → drawCard g fresh = some g' →
      Reach stations g'
  | switch {g g' : GameState} {fresh : List Card} :
      Reach stations g → IsDeck fresh → switchCard g fresh = some g' →
      Reach stations g'
  | build {g g' : GameState} (fromId toId : ℕ) {fresh : List Card} :
      Reach stations g → IsDeck fresh →
      buildStep stations g fromId toId fresh = some g' →
      Reach stations g'
  | endRound {g g' : GameState} {fresh : List Card} :
      Reach stations g → IsDeck fresh →
      nextRoundRun stations g fresh = some g' →
      Reach stations g'
  | reset {g : GameState} : Reach stations g → Reach stations resetState

/-- Per-line build states reachable from ensureLineState's initial state by
any sequence of addSegment calls (the per-line part of addSegment). -/
inductive LSReach (startId : ℕ) : LineState → Prop where
  | init : LSReach startId (initLS startId)
  | step {LS : LineState} (fromId toId : ℕ) :
      LSReach startId LS → LSReach startId (LS.addSeg fromId toId)

/-- Connection-degree of a station within a segment list: the number of
segment endpoints equal to it. -/
def degree (sid : ℕ) (segs : List Seg) : ℕ :=
  segs.countP (fun s => s.a == sid) + segs.countP (fun s => s.b == sid)

/-- All placed segments across all lines, in map-iteration order. -/
def allSegsL (ls : List (ℕ × LineState)) : List Seg :=
  ls.flatMap (fun p => p.2.segments)

/-- Two segments name the same unordered station pair. -/
def sameUnordered (s1 s2 : Seg) : Prop :=
  (s1.a = s2.a ∧ s1.b = s2.b) ∨ (s1.a = s2.b ∧ s1.b = s2.a)

instance : DecidablePred (fun p : Seg × Seg => sameUnordered p.1 p.2) :=
  fun _ => by unfold sameUnordered; infer_instance

/-! ### Spec-side definitions (following the specification's words, for the
refinement statements that compare the code's computations with them) -/

/-- Spec side: the set of districts represented among a visited set. -/
def specDistricts (stations : List Station) (v : Finset ℕ) : Finset ℕ :=
  v.biUnion (fun sid => (districtOf stations sid).toFinset)

/-- Spec side: the number of visited stations lying in district d. -/
def specDistrictCount (stations : List Station) (v : Finset ℕ) (d : ℕ) : ℕ :=
  (v.filter (fun sid => districtOf stations sid = some d)).card

/-- Spec side: the set of distinct line ids whose build state visited sid. -/
def specLinesVisiting (ls : List (ℕ × LineState)) (sid : ℕ) : Finset ℕ :=
  ((ls.filter (fun p => sid ∈ p.2.visited)).map Prod.fst).toFinset

/-- Spec side: PP, the number of distinct train-hub stations visited by any
line. -/
def specPP (stations : List Station) (ls : List (ℕ × LineState)) : ℕ :=
  ((touchedStations ls).filter (fun sid => isTrainStation stations sid)).card

/-- Spec side: stations visited by exactly two distinct lines. -/
def specP2 (ls : List (ℕ × LineState)) : ℕ :=
  ((touchedStations ls).filter (fun sid => (specLinesVisiting ls sid).card = 2)).card

/-- Spec side: stations visited by exactly three distinct lines. -/
def specP3 (ls : List (ℕ × LineState)) : ℕ :=
  ((touchedStations ls).filter (fun sid => (specLinesVisiting ls sid).card = 3)).card

/-- Spec side: stations visited by four or more distinct lines. -/
def specP4 (ls : List (ℕ × LineState)) : ℕ :=
  ((touchedStations ls).filter (fun sid => 4 ≤ (specLinesVisiting ls sid).card)).card

/-- Spec side: a point (with integer coordinates) lying on a segment, i.e.
collinear with its endpoints and inside their bounding box. -/
def PtOnSeg (p u v : Pt) : Prop :=
  cross u v p = 0 ∧ onSeg u p v = true

/-- Spec side: two segments overlap collinearly, i.e. they have more than
one common point; for integer segments a nondegenerate common subsegment
always has its (integer) endpoints in common. -/
def SegOverlapCollinear (a1 a2 b1 b2 : Pt) : Prop :=
  ∃ p q : Pt, p ≠ q ∧ PtOnSeg p a1 a2 ∧ PtOnSeg q a1 a2 ∧ PtOnSeg p b1 b2 ∧ PtOnSeg q b1 b2

/-! ### Concrete instances used by witnesses and counterexamples -/

/-- A freshly started game with the identity line order and the unshuffled
deck. -/
def cexStart : GameState :=
  startGameState [0, 1, 2, 3] baseDeck

/-- The started game with the current line's build state already created. -/
def cexWithLS : GameState :=
  { cexStart with lineStates := [(0, initLS 19)] }

/-- One draw from the fixed deck (total, for concrete reachable states). -/
def drawn (g : GameState) : GameState :=
  (drawCard g baseDeck).getD resetState

/-- The state after five draws from the unshuffled deck: the five side
cards have been drawn, so the round is complete, with an active unused
card and the switch ability unused. -/
def cexFiveDraws : GameState :=
  drawn (drawn (drawn (drawn (drawn cexStart))))

/-- A four-station dataset with two districts (counts {3, 1}) and one pair
of stations on opposite river banks. -/
def exStations : List Station :=
  [⟨1, 0, 0, "A", false, some "Buda", some 5⟩,
   ⟨2, 1, 1, "B", false, some "Pest", some 5⟩,
   ⟨3, 2, 2, "C", false, none, some 5⟩,
   ⟨4, 3, 3, "D", false, none, some 6⟩]

/-- A line build state visiting the four stations of `exStations` with one
placed cross-bank segment. -/
def exLS : LineState :=
  ⟨[⟨1, 2⟩], ∅, {1, 2, 3, 4}⟩

/-! ### Helper lemmas about the state transformers -/

@[simp]
theorem ensureStates_order (g : GameState) (lid s : ℕ) :
    (ensureStates g lid s).order = g.order := by
  unfold ensureStates; split <;> rfl

@[simp]
theorem ensureStates_roundIndex (g : GameState) (lid s : ℕ) :
    (ensureStates g lid s).roundIndex = g.roundIndex := by
  unfold ensureStates; split <;> rfl

@[simp]
theorem ensureStates_deck (g : GameState) (lid s : ℕ) :
    (ensureStates g lid s).deck = g.deck := by
  unfold ensureStates; split <;> rfl

@[simp]
theorem ensureStates_drawsThisRound (g : GameState) (lid s : ℕ) :
    (ensureStates g lid s).drawsThisRound = g.drawsThisRound := by
  unfold ensureStates; split <;> rfl

@[simp]
theorem ensureStates_centerCount (g : GameState) (lid s : ℕ) :
    (ensureStates g lid s).centerCount = g.centerCount := by
  unfold ensureStates; split <;> rfl

@[simp]
theorem ensureStates_sideCount (g : GameState) (lid s : ℕ) :
    (ensureStates g lid s).sideCount = g.sideCount := by
  unfold ensureStates; split <;> rfl

@[simp]
theorem ensureStates_currentCard (g : GameState) (lid s : ℕ) :
    (ensureStates g lid s).currentCard = g.currentCard := by
  unfold ensureStates; split <;> rfl

@[simp]
theorem ensureStates_heldCard (g : GameState) (lid s : ℕ) :
    (ensureStates g lid s).heldCard = g.heldCard := by
  unfold ensureStates; split <;> rfl

@[simp]
theorem ensureStates_buildUsed (g : GameState) (lid s : ℕ) :
    (ensureStates g lid s).buildUsedForThisCard = g.buildUsedForThisCard := by
  unfold ensureStates; split <;> rfl

@[simp]
theorem ensureStates_roundComplete (g : GameState) (lid s : ℕ) :
    (ensureStates g lid s).roundComplete = g.roundComplete := by
  unfold ensureStates; split <;> rfl

@[simp]
theorem ensureStates_switchUsed (g : GameState) (lid s : ℕ) :
    (ensureStates g lid s).switchUsedThisRound = g.switchUsedThisRound := by
  unfold ensureStates; split <;> rfl

@[simp]
theorem ensureStates_stationOwner (g : GameState) (lid s : ℕ) :
    (ensureStates g lid s).stationOwner = g.stationOwner := by
  unfold ensureStates; split <;> rfl

@[simp]
theorem ensureStates_roundResults (g : GameState) (lid s : ℕ) :
    (ensureStates g lid s).roundResults = g.roundResults := by
  unfold ensureStates; split <;> rfl

theorem ensureStates_lineStates_append (g : GameState) (lid s : ℕ) :
    ∃ tail, (ensureStates g lid s).lineStates = g.lineStates ++ tail := by
  unfold ensureStates; split
  · exact ⟨[], by simp⟩
  · exact ⟨[(lid, initLS s)], rfl⟩

theorem ensureStates_of_has (g : GameState) (lid s : ℕ)
    (h : lsHas g.lineStates lid = true) : ensureStates g lid s = g := by
  unfold ensureStates; rw [if_pos h]

/-- canConnectB is false whenever there is no active card (the
stationMatchesCard conjunct fails unconditionally). -/
theorem canConnectB_eq_false_of_no_card (stations : List Station) (g : GameState)
    (line : LineCfg) (LS : LineState) (fromId toId : ℕ)
    (hc : g.currentCard = none) :
    canConnectB stations g line LS fromId toId = false := by
  unfold canConnectB
  cases stationById stations fromId <;> cases stationById stations toId <;>
    simp [stationMatchesCard, hc]

theorem mem_toggle {s : Finset ℕ} {a b : ℕ} :
    a ∈ toggle s b ↔ (if a = b then b ∉ s else a ∈ s) := by
  unfold toggle
  by_cases hb : b ∈ s <;> by_cases hab : a = b <;>
    simp [hb, hab, Finset.mem_erase, Finset.mem_insert]

theorem degree_append (sid f t : ℕ) (segs : List Seg) :
    degree sid (segs ++ [⟨f, t⟩]) =
      degree sid segs + ((if sid = f then 1 else 0) + (if sid = t then 1 else 0)) := by
  unfold degree
  rw [List.countP_append, List.countP_append]
  simp only [List.countP_cons, List.countP_nil, beq_iff_eq]
  split_ifs <;> omega

/-- Toggling the two endpoint memberships tracks the parity of the
connection-degree updated by one appended segment. -/
theorem toggle_parity (E : Finset ℕ) (dcount : ℕ → ℕ)
    (hE : ∀ sid, sid ∈ E ↔ Odd (dcount sid)) (f t sid : ℕ) :
    (sid ∈ toggle (toggle E f) t ↔
      Odd (dcount sid + ((if sid = f then 1 else 0) + (if sid = t then 1 else 0)))) := by
  have h1 := (hE sid).trans Nat.odd_iff
  rw [Nat.odd_iff]
  by_cases ht : sid = t <;> by_cases hf : sid = f
  · subst ht; subst hf
    simp only [mem_toggle, eq_self_iff_true, if_true, not_not]
    rw [h1]; omega
  · subst ht
    simp only [mem_toggle, eq_self_iff_true, if_true, if_neg hf]
    rw [h1]; omega
  · subst hf
    simp only [mem_toggle, if_neg ht, eq_self_iff_true, if_true]
    rw [h1]; omega
  · simp only [mem_toggle, if_neg ht, if_neg hf]
    rw [h1]; omega

theorem ownerHas_cons (q : ℕ × ℕ) (rest : List (ℕ × ℕ)) (x : ℕ) :
    ownerHas (q :: rest) x = ((q.1 == x) || ownerHas rest x) := by
  unfold ownerHas
  by_cases hq : ((fun p : ℕ × ℕ => p.1 == x) q) = true
  · rw [List.find?_cons_of_pos rest hq]
    simp only at hq
    rw [hq]; simp
  · rw [List.find?_cons_of_neg rest hq]
    simp only at hq
    simp [Bool.eq_false_iff.mpr hq]

theorem ownerHas_set_ne (ow : List (ℕ × ℕ)) (id v x : ℕ) (hx : x ≠ id) :
    ownerHas (ownerSet ow id v) x = ownerHas ow x := by
  have hidx : (id == x) = false := by
    simp [beq_eq_false_iff_ne, Ne.symm hx]
  induction ow with
  | nil =>
    simp [ownerSet, ownerHas, List.find?_cons_of_neg, hidx]
  | cons p rest ih =>
    unfold ownerSet
    by_cases hp : (p.1 == id) = true
    · rw [if_pos hp]
      have hpid : p.1 = id := by simpa using hp
      rw [ownerHas_cons, ownerHas_cons, hidx, hpid, hidx]
    · rw [if_neg hp]
      rw [ownerHas_cons, ownerHas_cons, ih]

theorem ownerAssign_has_te (ow : List (ℕ × ℕ)) (id startId lid : ℕ) :
    ownerHas (ownerAssign ow id startId lid) STATION_TRANSFER_EXCEPTION =
      ownerHas ow STATION_TRANSFER_EXCEPTION := by
  unfold ownerAssign
  split
  · rfl
  · rename_i hne
    split
    · apply ownerHas_set_ne
      intro hcontra
      exact hne (by simp [STATION_TRANSFER_EXCEPTION] at hcontra ⊢; omega)
    · rfl

/-- The ownership test can never block the transfer-exception station,
whatever the ownership map holds: it is always transfer-allowed. -/
theorem ownerBlocks_transfer_exception (ow : List (ℕ × ℕ)) (lineId startId : ℕ) :
    ownerBlocks ow lineId startId STATION_TRANSFER_EXCEPTION = false := by
  unfold ownerBlocks
  cases ownerGet ow STATION_TRANSFER_EXCEPTION with
  | none => rfl
  | some o => simp [isTransferAllowed]

theorem canConnectRun_some_line (stations : List Station) (g : GameState)
    (fromId toId : ℕ) (line : LineCfg) (h : currentLineCfg g = some line) :
    canConnectRun stations g fromId toId =
      some (canConnectB stations (ensureStates g line.id line.start) line
        ((lsGet (ensureStates g line.id line.start).lineStates line.id).getD
          (initLS line.start)) fromId toId,
        ensureStates g line.id line.start) := by
  unfold canConnectRun; rw [h]

theorem addSegmentRun_some_line (g : GameState) (fromId toId : ℕ) (line : LineCfg)
    (h : currentLineCfg g = some line) :
    addSegmentRun g fromId toId =
      some { ensureStates g line.id line.start with
        lineStates := lsUpdate (ensureStates g line.id line.start).lineStates line.id
          (fun LS => LS.addSeg fromId toId),
        stationOwner := ownerAssign (ownerAssign
          (ensureStates g line.id line.start).stationOwner fromId line.start line.id)
          toId line.start line.id } := by
  unfold addSegmentRun; rw [h]

theorem drawCard_stationOwner {g g' : GameState} {fresh : List Card}
    (h : drawCard g fresh = some g') : g'.stationOwner = g.stationOwner := by
  unfold drawCard at h
  split at h
  · simp only [Option.some.injEq] at h; subst h; rfl
  · split at h
    · exact absurd h (by simp)
    · simp only [Option.some.injEq] at h; subst h; rfl

theorem switchCard_stationOwner {g g' : GameState} {fresh : List Card}
    (h : switchCard g fresh = some g') : g'.stationOwner = g.stationOwner := by
  unfold switchCard at h
  split at h
  · simp only [Option.some.injEq] at h; subst h; rfl
  · split at h
    · simp only [Option.some.injEq] at h; subst h; rfl
    · split at h
      · simp only [Option.some.injEq] at h; subst h; rfl
      · split at h
        · exact absurd h (by simp)
        · simp only [Option.some.injEq] at h; subst h; rfl

theorem nextRoundRun_shape {stations : List Station} {g g' : GameState} {fresh : List Card}
    (h : nextRoundRun stations g fresh = some g') :
    ∃ line, currentLineCfg g = some line ∧
      (g' = afterScore stations g line ∨
       g' = afterRoundReset (afterScore stations g line) fresh) := by
  unfold nextRoundRun at h
  split at h
  · exact absurd h (by simp)
  · rename_i line hline
    refine ⟨line, hline, ?_⟩
    split at h
    · simp only [Option.some.injEq] at h; exact Or.inl h.symm
    · simp only [Option.some.injEq] at h; exact Or.inr h.symm

@[simp]
theorem afterScore_stationOwner (stations : List Station) (g : GameState) (line : LineCfg) :
    (afterScore stations g line).stationOwner = g.stationOwner := by
  unfold afterScore; simp

@[simp]
theorem afterScore_centerCount (stations : List Station) (g : GameState) (line : LineCfg) :
    (afterScore stations g line).centerCount = g.centerCount := by
  unfold afterScore; simp

@[simp]
theorem afterScore_sideCount (stations : List Station) (g : GameState) (line : LineCfg) :
    (afterScore stations g line).sideCount = g.sideCount := by
  unfold afterScore; simp

@[simp]
theorem afterScore_drawsThisRound (stations : List Station) (g : GameState) (line : LineCfg) :
    (afterScore stations g line).drawsThisRound = g.drawsThisRound := by
  unfold afterScore; simp

@[simp]
theorem afterScore_roundComplete (stations : List Station) (g : GameState) (line : LineCfg) :
    (afterScore stations g line).roundComplete = g.roundComplete := by
  unfold afterScore; simp

@[simp]
theorem afterRoundReset_stationOwner (g : GameState) (fresh : List Card) :
    (afterRoundReset g fresh).stationOwner = g.stationOwner := rfl

theorem nextRound_stationOwner {stations : List Station} {g g' : GameState}
    {fresh : List Card} (h : nextRoundRun stations g fresh = some g') :
    g'.stationOwner = g.stationOwner := by
  obtain ⟨line, _, hcase | hcase⟩ := nextRoundRun_shape h <;> subst hcase <;> simp

theorem addSegmentRun_ownerHas_te {g g2 : GameState} {fromId toId : ℕ}
    (h : addSegmentRun g fromId toId = some g2) :
    ownerHas g2.stationOwner STATION_TRANSFER_EXCEPTION =
      ownerHas g.stationOwner STATION_TRANSFER_EXCEPTION := by
  unfold addSegmentRun at h
  split at h
  · exact absurd h (by simp)
  · simp only [Option.some.injEq] at h; subst h
    simp only []
    rw [ownerAssign_has_te, ownerAssign_has_te, ensureStates_stationOwner]

theorem canConnectRun_none (stations : List Station) (g : GameState) (fromId toId : ℕ)
    (h : currentLineCfg g = none) : canConnectRun stations g fromId toId = none := by
  unfold canConnectRun; rw [h]

theorem canConnectRun_snd {stations : List Station} {g g1 : GameState}
    {fromId toId : ℕ} {ok : Bool}
    (h : canConnectRun stations g fromId toId = some (ok, g1)) :
    ∃ line, currentLineCfg g = some line ∧ g1 = ensureStates g line.id line.start := by
  cases hcl : currentLineCfg g with
  | none => rw [canConnectRun_none stations g fromId toId hcl] at h; exact absurd h (by simp)
  | some line =>
    rw [canConnectRun_some_line stations g fromId toId line hcl] at h
    simp only [Option.some.injEq, Prod.mk.injEq] at h
    exact ⟨line, rfl, h.2.symm⟩

theorem addSegmentRun_none (g : GameState) (fromId toId : ℕ)
    (h : currentLineCfg g = none) : addSegmentRun g fromId toId = none := by
  unfold addSegmentRun; rw [h]

theorem buildStep_ownerHas_te {stations : List Station} {g g' : GameState}
    {fromId toId : ℕ} {fresh : List Card}
    (h : buildStep stations g fromId toId fresh = some g') :
    ownerHas g'.stationOwner STATION_TRANSFER_EXCEPTION =
      ownerHas g.stationOwner STATION_TRANSFER_EXCEPTION := by
  unfold buildStep at h
  split at h
  · simp only [Option.some.injEq] at h; subst h; rfl
  · split at h
    · simp only [Option.some.injEq] at h; subst h; rfl
    · split at h
      · exact absurd h (by simp)
      · rename_i ok g1 hcc
        obtain ⟨line, hline, hg1⟩ := canConnectRun_snd hcc
        split at h
        · split at h
          · exact absurd h (by simp)
          · rename_i g2 hseg
            have howner2 : ownerHas g2.stationOwner STATION_TRANSFER_EXCEPTION =
                ownerHas g.stationOwner STATION_TRANSFER_EXCEPTION := by
              rw [addSegmentRun_ownerHas_te hseg, hg1, ensureStates_stationOwner]
            split at h
            · rw [nextRound_stationOwner h]
              exact howner2
            · simp only [Option.some.injEq] at h; subst h
              exact howner2
        · simp only [Option.some.injEq] at h; subst h
          rw [hg1, ensureStates_stationOwner]

/-! ### Claim theorems -/

/-- C9: for every pair of station ids and every engine state with no active
card (currentCard is null), canConnect returns false: the symbol-match
check fails unconditionally without a card, so no connection can be
accepted without a drawn card. -/
theorem canConnect_false_without_card (stations : List Station) (g : GameState)
    (fromId toId : ℕ) (b : Bool) (g' : GameState)
    (h : canConnectRun stations g fromId toId = some (b, g'))
    (hcard : g.currentCard = none) : b = false := by
  cases hcl : currentLineCfg g with
  | none => rw [canConnectRun_none stations g fromId toId hcl] at h; exact absurd h (by simp)
  | some line =>
    rw [canConnectRun_some_line stations g fromId toId line hcl] at h
    simp only [Option.some.injEq, Prod.mk.injEq] at h
    rw [← h.1]
    exact canConnectB_eq_false_of_no_card stations _ line _ fromId toId
      (by rw [ensureStates_currentCard]; exact hcard)

/-- Witness for C9 at a concrete state: the freshly started game has no
card, and canConnect evaluates to a rejection there. -/
theorem canConnect_false_without_card_witness :
    canConnectRun ([] : List Station) cexStart 1 2 = some (false, cexWithLS) ∧
      (false : Bool) = false :=
  ⟨by decide,
   canConnect_false_without_card [] cexStart 1 2 false cexWithLS (by decide) (by decide)⟩

/-- C7: for every line build state reachable by ensureLineState followed by
any sequence of addSegment calls, a station is in the endpoints set iff its
connection-degree in the line's segment list is odd (each call toggles
exactly the two endpoint memberships), the visited set never loses an
element across an addSegment call, and visited always contains the line's
start station. -/
theorem line_build_invariants (startId : ℕ) (LS : LineState) (h : LSReach startId LS) :
    (∀ sid, sid ∈ LS.endpoints ↔ Odd (degree sid LS.segments)) ∧
    startId ∈ LS.visited ∧
    (∀ fromId toId, LS.visited ⊆ (LineState.addSeg LS fromId toId).visited) := by
  induction h with
  | init =>
    refine ⟨fun sid => ?_, ?_, fun f t => ?_⟩
    · simp [initLS, degree]
    · simp [initLS]
    · intro x hx
      exact Finset.mem_insert_of_mem (Finset.mem_insert_of_mem hx)
  | step f t hr ih =>
    obtain ⟨ihE, ihS, _⟩ := ih
    refine ⟨fun sid => ?_, ?_, fun f' t' => ?_⟩
    · show sid ∈ toggle (toggle _ f) t ↔ _
      rw [show (LineState.addSeg _ f t).segments = _ ++ [⟨f, t⟩] from rfl, degree_append]
      exact toggle_parity _ _ ihE f t sid
    · exact Finset.mem_insert_of_mem (Finset.mem_insert_of_mem ihS)
    · intro x hx
      exact Finset.mem_insert_of_mem (Finset.mem_insert_of_mem hx)

/-- Witness for C7 at the initial build state of line M1. -/
theorem line_build_invariants_witness : (19 : ℕ) ∈ (initLS 19).visited :=
  (line_build_invariants 19 (initLS 19) LSReach.init).2.1

/-- C10: in every reachable engine state the ownership map has no entry for
the transfer-exception station (id 30): addSegment skips the assignment for
it, so it never acquires an owner; and the ownership check can never reject
a connection because of it. -/
theorem transfer_exception_never_owned (stations : List Station) (g : GameState)
    (h : Reach stations g) :
    ownerHas g.stationOwner STATION_TRANSFER_EXCEPTION = false ∧
    (∀ ow lineId startId, ownerBlocks ow lineId startId STATION_TRANSFER_EXCEPTION = false) := by
  refine ⟨?_, fun ow l s => ownerBlocks_transfer_exception ow l s⟩
  induction h with
  | start o d ho hd => rfl
  | draw hr hd hdraw ih => rw [drawCard_stationOwner hdraw]; exact ih
  | switch hr hd hsw ih => rw [switchCard_stationOwner hsw]; exact ih
  | build f t hr hd hb ih => rw [buildStep_ownerHas_te hb]; exact ih
  | endRound hr hd hnr ih => rw [nextRound_stationOwner hnr]; exact ih
  | reset hr ih => rfl

/-- Witness for C10 at the freshly started game. -/
theorem transfer_exception_never_owned_witness :
    ownerHas cexStart.stationOwner STATION_TRANSFER_EXCEPTION = false :=
  (transfer_exception_never_owned [] cexStart
    (Reach.start [0, 1, 2, 3] baseDeck (List.Perm.refl _) (List.Perm.refl _))).1

theorem roundEndCond_ext {g g' : GameState} (hc : g'.centerCount = g.centerCount)
    (hs : g'.sideCount = g.sideCount) (hd : g'.drawsThisRound = g.drawsThisRound) :
    roundEndCond g' = roundEndCond g := by
  unfold roundEndCond; rw [hc, hs, hd]

/-- Transport of the round-ending synchronization invariant along an
operation not touching the counters. -/
theorem synced_of_fields {g g' : GameState} (hrc : g'.roundComplete = g.roundComplete)
    (hc : g'.centerCount = g.centerCount) (hs : g'.sideCount = g.sideCount)
    (hd : g'.drawsThisRound = g.drawsThisRound)
    (h : g.roundComplete = roundEndCond g) :
    g'.roundComplete = roundEndCond g' := by
  rw [hrc, h]
  exact (roundEndCond_ext hc hs hd).symm

theorem updateRoundEnding_synced (g : GameState) :
    (updateRoundEnding g).roundComplete = roundEndCond (updateRoundEnding g) := rfl

theorem afterRoundReset_synced (g : GameState) (fresh : List Card) :
    (afterRoundReset g fresh).roundComplete = roundEndCond (afterRoundReset g fresh) := rfl

theorem addSegmentRun_round_fields {g g2 : GameState} {fromId toId : ℕ}
    (h : addSegmentRun g fromId toId = some g2) :
    g2.roundComplete = g.roundComplete ∧ g2.centerCount = g.centerCount ∧
    g2.sideCount = g.sideCount ∧ g2.drawsThisRound = g.drawsThisRound := by
  unfold addSegmentRun at h
  split at h
  · exact absurd h (by simp)
  · simp only [Option.some.injEq] at h
    subst h
    exact ⟨by simp, by simp, by simp, by simp⟩

/-- In every reachable engine state the roundComplete flag agrees with the
round-ending condition computed from the counters. -/
theorem reach_synced (stations : List Station) (g : GameState) (h : Reach stations g) :
    g.roundComplete = roundEndCond g := by
  induction h with
  | start o d ho hd => rfl
  | reset hr ih => rfl
  | draw hr hd hdraw ih =>
    unfold drawCard at hdraw
    split at hdraw
    · simp only [Option.some.injEq] at hdraw; subst hdraw; exact ih
    · split at hdraw
      · exact absurd hdraw (by simp)
      · simp only [Option.some.injEq] at hdraw; subst hdraw
        exact updateRoundEnding_synced _
  | switch hr hd hsw ih =>
    unfold switchCard at hsw
    split at hsw
    · simp only [Option.some.injEq] at hsw; subst hsw; exact ih
    · split at hsw
      · simp only [Option.some.injEq] at hsw; subst hsw; exact ih
      · split at hsw
        · simp only [Option.some.injEq] at hsw; subst hsw; exact ih
        · split at hsw
          · exact absurd hsw (by simp)
          · simp only [Option.some.injEq] at hsw; subst hsw
            exact updateRoundEnding_synced _
  | endRound hr hd hnr ih =>
    obtain ⟨line, hline, hcase | hcase⟩ := nextRoundRun_shape hnr <;> subst hcase
    · exact synced_of_fields (afterScore_roundComplete _ _ _)
        (afterScore_centerCount _ _ _) (afterScore_sideCount _ _ _)
        (afterScore_drawsThisRound _ _ _) ih
    · exact afterRoundReset_synced _ _
  | build f t hr hd hb ih =>
    unfold buildStep at hb
    split at hb
    · simp only [Option.some.injEq] at hb; subst hb; exact ih
    · split at hb
      · simp only [Option.some.injEq] at hb; subst hb; exact ih
      · split at hb
        · exact absurd hb (by simp)
        · rename_i ok g1 hcc
          obtain ⟨line, hline, hg1⟩ := canConnectRun_snd hcc
          subst hg1
          have hsync1 : (ensureStates _ line.id line.start).roundComplete =
              roundEndCond (ensureStates _ line.id line.start) :=
            synced_of_fields (ensureStates_roundComplete _ _ _)
              (ensureStates_centerCount _ _ _) (ensureStates_sideCount _ _ _)
              (ensureStates_drawsThisRound _ _ _) ih
          split at hb
          · split at hb
            · exact absurd hb (by simp)
            · rename_i g2 hseg
              obtain ⟨hq1, hq2, hq3, hq4⟩ := addSegmentRun_round_fields hseg
              have hsync2 : g2.roundComplete = roundEndCond g2 :=
                synced_of_fields hq1 hq2 hq3 hq4 hsync1
              have hsync3 : ({ g2 with buildUsedForThisCard := true } : GameState).roundComplete =
                  roundEndCond { g2 with buildUsedForThisCard := true } :=
                synced_of_fields rfl rfl rfl rfl hsync2
              split at hb
              · obtain ⟨line2, hline2, hc2 | hc2⟩ := nextRoundRun_shape hb <;> subst hc2
                · exact synced_of_fields (afterScore_roundComplete _ _ _)
                    (afterScore_centerCount _ _ _) (afterScore_sideCount _ _ _)
                    (afterScore_drawsThisRound _ _ _) hsync3
                · exact afterRoundReset_synced _ _
              · simp only [Option.some.injEq] at hb; subst hb
                exact hsync3
          · simp only [Option.some.injEq] at hb; subst hb
            exact hsync1

/-- C2: in every reachable state the round is marked ended iff total draws
reached 8 or either platform-type count reached 5 (so it is never marked
ended earlier), and once it is marked ended a further draw() call changes
nothing: no card is popped and no counter is incremented. -/
theorem round_end_iff (stations : List Station) (g : GameState) (h : Reach stations g) :
    ((g.roundComplete = true) ↔
      (8 ≤ g.drawsThisRound ∨ 5 ≤ g.centerCount ∨ 5 ≤ g.sideCount)) ∧
    (∀ fresh, g.roundComplete = true → drawCard g fresh = some g) := by
  constructor
  · rw [reach_synced stations g h]
    unfold roundEndCond
    simp only [Bool.or_eq_true, decide_eq_true_eq]
    tauto
  · intro fresh hc
    unfold drawCard
    rw [if_pos hc]

/-- Witness for C2 at the freshly started game (round not ended, all
counters zero). -/
theorem round_end_iff_witness :
    (cexStart.roundComplete = true) ↔
      (8 ≤ cexStart.drawsThisRound ∨ 5 ≤ cexStart.centerCount ∨ 5 ≤ cexStart.sideCount) :=
  (round_end_iff [] cexStart
    (Reach.start [0, 1, 2, 3] baseDeck (List.Perm.refl _) (List.Perm.refl _))).1

/-- C5 counterexample: a reachable round state with roundComplete = true in
which switchCard still changes the state (it pops a replacement card and
consumes the switch): the code has no roundComplete guard in switchCard, so
the switch ability is not locked by the end of the round. -/
theorem switchCard_after_round_end_changes_state :
    Reach [] cexFiveDraws ∧ cexFiveDraws.roundComplete = true ∧
      switchCard cexFiveDraws baseDeck ≠ some cexFiveDraws := by
  refine ⟨?_, by decide, by decide⟩
  have h0 : Reach ([] : List Station) cexStart :=
    Reach.start [0, 1, 2, 3] baseDeck (List.Perm.refl _) (List.Perm.refl _)
  have h1 : Reach ([] : List Station) (drawn cexStart) :=
    Reach.draw h0 (List.Perm.refl _) (by decide)
  have h2 : Reach ([] : List Station) (drawn (drawn cexStart)) :=
    Reach.draw h1 (List.Perm.refl _) (by decide)
  have h3 : Reach ([] : List Station) (drawn (drawn (drawn cexStart))) :=
    Reach.draw h2 (List.Perm.refl _) (by decide)
  have h4 : Reach ([] : List Station) (drawn (drawn (drawn (drawn cexStart)))) :=
    Reach.draw h3 (List.Perm.refl _) (by decide)
  exact Reach.draw h4 (List.Perm.refl _) (by decide)

/-- C5 (amended): switchCard changes nothing when no card is active, when
the card was already used for a build, or when the switch was already used
this round; and whenever it does proceed it never changes the draw count or
the platform-type counters.  roundComplete itself does not lock it. -/
theorem switchCard_guards_and_counters (g : GameState) (fresh : List Card) :
    ((g.currentCard = none ∨ g.buildUsedForThisCard = true ∨ g.switchUsedThisRound = true) →
      switchCard g fresh = some g) ∧
    (∀ g', switchCard g fresh = some g' →
      g'.drawsThisRound = g.drawsThisRound ∧ g'.centerCount = g.centerCount ∧
      g'.sideCount = g.sideCount) := by
  constructor
  · intro hg
    unfold switchCard
    rcases hg with hg | hg | hg
    · rw [if_pos (show g.currentCard.isNone = true by rw [hg]; rfl)]
    · by_cases h1 : g.currentCard.isNone
      · rw [if_pos h1]
      · rw [if_neg h1, if_pos hg]
    · by_cases h1 : g.currentCard.isNone
      · rw [if_pos h1]
      · rw [if_neg h1]
        by_cases h2 : g.buildUsedForThisCard
        · rw [if_pos h2]
        · rw [if_neg h2, if_pos hg]
  · intro g' h
    unfold switchCard at h
    split at h
    · simp only [Option.some.injEq] at h; subst h; exact ⟨rfl, rfl, rfl⟩
    · split at h
      · simp only [Option.some.injEq] at h; subst h; exact ⟨rfl, rfl, rfl⟩
      · split at h
        · simp only [Option.some.injEq] at h; subst h; exact ⟨rfl, rfl, rfl⟩
        · split at h
          · exact absurd h (by simp)
          · simp only [Option.some.injEq] at h; subst h; exact ⟨rfl, rfl, rfl⟩

/-- Witness for C5's amended statement: the no-card guard no-ops and the
counters are unchanged. -/
theorem switchCard_guards_and_counters_witness :
    switchCard cexStart baseDeck = some cexStart ∧
      cexStart.drawsThisRound = cexStart.drawsThisRound :=
  ⟨(switchCard_guards_and_counters cexStart baseDeck).1 (Or.inl rfl),
   ((switchCard_guards_and_counters cexStart baseDeck).2 cexStart
     ((switchCard_guards_and_counters cexStart baseDeck).1 (Or.inl rfl))).1⟩

/-- C1 counterexample: on an engine state in which the current line has no
build state yet, canConnect creates it (via its ensureLineState call) even
though it rejects the connection, so the line build states are not
identical before and after the call. -/
theorem canConnect_mutates_on_lazy_init :
    canConnectRun ([] : List Station) cexStart 1 2 = some (false, cexWithLS) ∧
      cexWithLS ≠ cexStart :=
  ⟨by decide, by decide⟩

/-- C1 (amended): canConnect returns a boolean and leaves every engine
field except the lineStates map unchanged (ownership, round counters,
current card, round results); the lineStates map can only grow by the lazy
creation of the current line's initial build state, and when that build
state already exists the whole state is left untouched, in particular on a
rejected attempt. -/
theorem canConnect_no_mutation_beyond_lazy_init (stations : List Station)
    (g : GameState) (fromId toId : ℕ) (b : Bool) (g' : GameState)
    (h : canConnectRun stations g fromId toId = some (b, g')) :
    (g'.order = g.order ∧ g'.roundIndex = g.roundIndex ∧ g'.deck = g.deck ∧
     g'.drawsThisRound = g.drawsThisRound ∧ g'.centerCount = g.centerCount ∧
     g'.sideCount = g.sideCount ∧ g'.currentCard = g.currentCard ∧
     g'.heldCard = g.heldCard ∧ g'.buildUsedForThisCard = g.buildUsedForThisCard ∧
     g'.roundComplete = g.roundComplete ∧ g'.switchUsedThisRound = g.switchUsedThisRound ∧
     g'.stationOwner = g.stationOwner ∧ g'.roundResults = g.roundResults) ∧
    (∃ tail, g'.lineStates = g.lineStates ++ tail) ∧
    (∀ line, currentLineCfg g = some line → lsHas g.lineStates line.id = true → g' = g) := by
  obtain ⟨line, hline, hg'⟩ := canConnectRun_snd h
  subst hg'
  refine ⟨⟨by simp, by simp, by simp, by simp, by simp, by simp, by simp, by simp,
    by simp, by simp, by simp, by simp, by simp⟩,
    ensureStates_lineStates_append g line.id line.start, ?_⟩
  intro line' hline' hhas
  rw [hline] at hline'
  injection hline' with hline'
  subst hline'
  exact ensureStates_of_has g line.id line.start hhas

/-- Witness for C1's amended statement: with the current line's build state
already present, canConnect leaves the state untouched. -/
theorem canConnect_no_mutation_beyond_lazy_init_witness :
    cexWithLS = cexWithLS ∧
      canConnectRun ([] : List Station) cexWithLS 1 2 = some (false, cexWithLS) :=
  ⟨(canConnect_no_mutation_beyond_lazy_init [] cexWithLS 1 2 false cexWithLS
      (by decide)).2.2 ⟨0, "M1", "#FFD800", 19⟩ (by decide) (by decide),
   by decide⟩

theorem sameUnordered_symm {s1 s2 : Seg} (h : sameUnordered s1 s2) :
    sameUnordered s2 s1 := by
  rcases h with ⟨h1, h2⟩ | ⟨h1, h2⟩
  · exact Or.inl ⟨h1.symm, h2.symm⟩
  · exact Or.inr ⟨h2.symm, h1.symm⟩

theorem allSegsL_append_init (ls : List (ℕ × LineState)) (lid s : ℕ) :
    allSegsL (ls ++ [(lid, initLS s)]) = allSegsL ls := by
  simp [allSegsL, List.flatMap_append, initLS]

theorem allSegsL_ensure (g : GameState) (lid s : ℕ) :
    allSegsL (ensureStates g lid s).lineStates = allSegsL g.lineStates := by
  unfold ensureStates; split
  · rfl
  · exact allSegsL_append_init g.lineStates lid s

theorem lsHas_ensure_self (g : GameState) (lid s : ℕ) :
    lsHas (ensureStates g lid s).lineStates lid = true := by
  unfold ensureStates
  split
  · assumption
  · unfold lsHas
    rw [List.find?_append]
    cases List.find? (fun p => p.1 == lid) g.lineStates <;>
      simp [List.find?]

theorem currentLineCfg_ensure (g : GameState) (lid s : ℕ) :
    currentLineCfg (ensureStates g lid s) = currentLineCfg g := by
  unfold currentLineCfg currentLineId
  rw [ensureStates_order, ensureStates_roundIndex]

theorem lsHas_split {ls : List (ℕ × LineState)} {lid : ℕ} (h : lsHas ls lid = true) :
    ∃ pre LS post, ls = pre ++ (lid, LS) :: post ∧
      ∀ f, lsUpdate ls lid f = pre ++ (lid, f LS) :: post := by
  induction ls with
  | nil => simp [lsHas] at h
  | cons p rest ih =>
    obtain ⟨p1, p2⟩ := p
    by_cases hp : (p1 == lid) = true
    · have hpe : p1 = lid := by simpa using hp
      subst hpe
      refine ⟨[], p2, rest, rfl, fun f => ?_⟩
      simp [lsUpdate]
    · have hrest : lsHas rest lid = true := by
        unfold lsHas at h ⊢
        rw [List.find?_cons_of_neg rest hp] at h
        exact h
      obtain ⟨pre, LS, post, hsplit, hupd⟩ := ih hrest
      refine ⟨(p1, p2) :: pre, LS, post, by rw [hsplit]; rfl, fun f => ?_⟩
      show (if (p1 == lid) = true then _ else _) = _
      rw [if_neg hp, hupd f]
      rfl

theorem allSegsL_middle (pre post : List (ℕ × LineState)) (lid : ℕ) (LS : LineState) :
    allSegsL (pre ++ (lid, LS) :: post) =
      allSegsL pre ++ (LS.segments ++ allSegsL post) := by
  simp [allSegsL, List.flatMap_append]

theorem canConnectB_true_noDup {stations : List Station} {g : GameState}
    {line : LineCfg} {LS : LineState} {fromId toId : ℕ}
    (h : canConnectB stations g line LS fromId toId = true) :
    noDuplicateSeg g.lineStates fromId toId = true := by
  unfold canConnectB at h
  split at h
  · simp only [Bool.and_eq_true] at h
    exact h.2.2.2.2.2.2.2.1
  · exact absurd h (by simp)

theorem noDuplicateSeg_spec {ls : List (ℕ × LineState)} {fromId toId : ℕ}
    (h : noDuplicateSeg ls fromId toId = true) :
    ∀ s ∈ allSegsL ls, ¬ sameUnordered s ⟨fromId, toId⟩ := by
  intro s hs
  rw [allSegsL, List.mem_flatMap] at hs
  obtain ⟨p, hp, hsp⟩ := hs
  unfold noDuplicateSeg at h
  rw [List.all_eq_true] at h
  have h2 := h p hp
  rw [List.all_eq_true] at h2
  have h3 := h2 s hsp
  intro hcontra
  rcases hcontra with ⟨h4, h5⟩ | ⟨h4, h5⟩ <;> simp [h4, h5] at h3

theorem drawCard_lineStates {g g' : GameState} {fresh : List Card}
    (h : drawCard g fresh = some g') : g'.lineStates = g.lineStates := by
  unfold drawCard at h
  split at h
  · simp only [Option.some.injEq] at h; subst h; rfl
  · split at h
    · exact absurd h (by simp)
    · simp only [Option.some.injEq] at h; subst h; rfl

theorem switchCard_lineStates {g g' : GameState} {fresh : List Card}
    (h : switchCard g fresh = some g') : g'.lineStates = g.lineStates := by
  unfold switchCard at h
  split at h
  · simp only [Option.some.injEq] at h; subst h; rfl
  · split at h
    · simp only [Option.some.injEq] at h; subst h; rfl
    · split at h
      · simp only [Option.some.injEq] at h; subst h; rfl
      · split at h
        · exact absurd h (by simp)
        · simp only [Option.some.injEq] at h; subst h; rfl

theorem afterScore_allSegs (stations : List Station) (g : GameState) (line : LineCfg) :
    allSegsL (afterScore stations g line).lineStates = allSegsL g.lineStates := by
  show allSegsL (ensureStates g line.id line.start).lineStates = _
  exact allSegsL_ensure g line.id line.start

theorem nextRound_allSegs {stations : List Station} {g g' : GameState} {fresh : List Card}
    (h : nextRoundRun stations g fresh = some g') :
    allSegsL g'.lineStates = allSegsL g.lineStates := by
  obtain ⟨line, hline, hcase | hcase⟩ := nextRoundRun_shape h <;> subst hcase
  · exact afterScore_allSegs stations g line
  · exact afterScore_allSegs stations g line

/-- C8: in every engine state reachable with addSegment invoked only after
canConnect accepts, the segments across all four lines' build states are
pairwise distinct as unordered station pairs: no unordered pair {a, b}
appears twice, on the same line or on different lines. -/
theorem no_duplicate_segments (stations : List Station) (g : GameState)
    (h : Reach stations g) :
    (allSegsL g.lineStates).Pairwise (fun s1 s2 => ¬ sameUnordered s1 s2) := by
  induction h with
  | start o d ho hd => exact List.Pairwise.nil
  | reset hr ih => exact List.Pairwise.nil
  | draw hr hd hdraw ih => rw [drawCard_lineStates hdraw]; exact ih
  | switch hr hd hsw ih => rw [switchCard_lineStates hsw]; exact ih
  | endRound hr hd hnr ih => rw [nextRound_allSegs hnr]; exact ih
  | build f t hr hd hb ih =>
    unfold buildStep at hb
    split at hb
    · simp only [Option.some.injEq] at hb; subst hb; exact ih
    · split at hb
      · simp only [Option.some.injEq] at hb; subst hb; exact ih
      · split at hb
        · exact absurd hb (by simp)
        · rename_i ok g1 hcc
          obtain ⟨line, hline, hg1⟩ := canConnectRun_snd hcc
          split at hb
          · rename_i hok
            -- accepted: the duplicate scan succeeded on g1's lineStates
            have hok2 : canConnectB stations g1 line
                ((lsGet g1.lineStates line.id).getD (initLS line.start)) f t = true := by
              rw [canConnectRun_some_line stations _ f t line hline] at hcc
              simp only [Option.some.injEq, Prod.mk.injEq] at hcc
              rw [← hg1] at hcc
              exact hcc.1.trans hok
            have hnodup := canConnectB_true_noDup hok2
            have hpair1 : (allSegsL g1.lineStates).Pairwise
                (fun s1 s2 => ¬ sameUnordered s1 s2) := by
              rw [hg1, allSegsL_ensure]; exact ih
            have hhas1 : lsHas g1.lineStates line.id = true := by
              rw [hg1]; exact lsHas_ensure_self _ line.id line.start
            obtain ⟨pre, LS1, post, hdec, hupd⟩ := lsHas_split hhas1
            have hpair2 : ∀ g2, addSegmentRun g1 f t = some g2 →
                (allSegsL g2.lineStates).Pairwise (fun s1 s2 => ¬ sameUnordered s1 s2) := by
              intro g2 hseg
              have hline1 : currentLineCfg g1 = some line := by
                rw [hg1, currentLineCfg_ensure]; exact hline
              rw [addSegmentRun_some_line g1 f t line hline1] at hseg
              simp only [Option.some.injEq] at hseg
              subst hseg
              show (allSegsL (lsUpdate (ensureStates g1 line.id line.start).lineStates
                line.id (fun LS => LS.addSeg f t))).Pairwise _
              rw [ensureStates_of_has g1 line.id line.start hhas1]
              rw [hupd]
              have hnew : ∀ s ∈ allSegsL g1.lineStates, ¬ sameUnordered s ⟨f, t⟩ :=
                noDuplicateSeg_spec hnodup
              rw [hdec, allSegsL_middle] at hpair1 hnew
              rw [allSegsL_middle]
              show (allSegsL pre ++ ((LS1.segments ++ [(⟨f, t⟩ : Seg)]) ++ allSegsL post)).Pairwise _
              have hperm : (allSegsL pre ++ ((LS1.segments ++ [(⟨f, t⟩ : Seg)]) ++ allSegsL post)).Perm
                  ((⟨f, t⟩ : Seg) :: (allSegsL pre ++ (LS1.segments ++ allSegsL post))) := by
                have he : allSegsL pre ++ ((LS1.segments ++ [(⟨f, t⟩ : Seg)]) ++ allSegsL post) =
                    (allSegsL pre ++ LS1.segments) ++ ((⟨f, t⟩ : Seg) :: allSegsL post) := by
                  simp [List.append_assoc]
                rw [he]
                have hp2 : ((allSegsL pre ++ LS1.segments) ++
                      ((⟨f, t⟩ : Seg) :: allSegsL post)).Perm
                    ((⟨f, t⟩ : Seg) :: ((allSegsL pre ++ LS1.segments) ++ allSegsL post)) :=
                  List.perm_middle
                refine hp2.trans ?_
                rw [List.append_assoc]
              rw [(hperm.pairwise_iff (fun hxy h2 => hxy (sameUnordered_symm h2)))]
              rw [List.pairwise_cons]
              constructor
              · intro y hy hsame
                exact hnew y hy (sameUnordered_symm hsame)
              · exact hpair1
            split at hb
            · exact absurd hb (by simp)
            · rename_i g2 hseg
              have hp2 := hpair2 g2 hseg
              split at hb
              · rw [nextRound_allSegs hb]
                exact hp2
              · simp only [Option.some.injEq] at hb; subst hb
                exact hp2
          · simp only [Option.some.injEq] at hb; subst hb
            rw [hg1, allSegsL_ensure]
            exact ih

/-- Witness for C8 at the freshly started game (no segments placed). -/
theorem no_duplicate_segments_witness :
    (allSegsL cexStart.lineStates).Pairwise (fun s1 s2 => ¬ sameUnordered s1 s2) :=
  no_duplicate_segments [] cexStart
    (Reach.start [0, 1, 2, 3] baseDeck (List.Perm.refl _) (List.Perm.refl _))

theorem bump_keys_mem (m : List (ℕ × ℕ)) (d e : ℕ) :
    e ∈ (bump m d).map Prod.fst ↔ (e ∈ m.map Prod.fst ∨ e = d) := by
  induction m with
  | nil => simp [bump]
  | cons p rest ih =>
    unfold bump
    by_cases hp : (p.1 == d) = true
    · have hpe : p.1 = d := by simpa using hp
      rw [if_pos hp]
      simp only [List.map_cons, List.mem_cons, hpe]
      tauto
    · rw [if_neg hp]
      simp only [List.map_cons, List.mem_cons, ih]
      tauto

theorem bump_keys_nodup {m : List (ℕ × ℕ)} (d : ℕ)
    (h : (m.map Prod.fst).Nodup) : ((bump m d).map Prod.fst).Nodup := by
  induction m with
  | nil => simp [bump]
  | cons p rest ih =>
    rw [List.map_cons, List.nodup_cons] at h
    unfold bump
    by_cases hp : (p.1 == d) = true
    · rw [if_pos hp]
      rw [List.map_cons, List.nodup_cons]
      exact h
    · have hpd : p.1 ≠ d := by simpa using hp
      rw [if_neg hp]
      rw [List.map_cons, List.nodup_cons]
      refine ⟨?_, ih h.2⟩
      rw [bump_keys_mem]
      rintro (hc | hc)
      · exact h.1 hc
      · exact hpd hc

theorem bump_length (m : List (ℕ × ℕ)) (d : ℕ) :
    (bump m d).length = if d ∈ m.map Prod.fst then m.length else m.length + 1 := by
  induction m with
  | nil => simp [bump]
  | cons p rest ih =>
    unfold bump
    by_cases hp : (p.1 == d) = true
    · have hpe : p.1 = d := by simpa using hp
      rw [if_pos hp]
      simp [hpe]
    · have hpd : p.1 ≠ d := by simpa using hp
      rw [if_neg hp]
      simp only [List.length_cons, ih, List.map_cons, List.mem_cons]
      have : ¬ d = p.1 := fun hc => hpd hc.symm
      split_ifs with h1 h2 h2 <;> try omega
      · exact absurd (Or.inr h1) h2
      · rcases h2 with hc | hc
        · exact absurd hc this
        · exact absurd hc h1

theorem bump_val_self {m : List (ℕ × ℕ)} {d v : ℕ}
    (hnd : (m.map Prod.fst).Nodup) (h : (d, v) ∈ bump m d) :
    (∃ v0, (d, v0) ∈ m ∧ v = v0 + 1) ∨ (v = 1 ∧ d ∉ m.map Prod.fst) := by
  induction m with
  | nil =>
    right
    simp [bump] at h
    simp [h]
  | cons p rest ih =>
    rw [List.map_cons, List.nodup_cons] at hnd
    unfold bump at h
    by_cases hp : (p.1 == d) = true
    · have hpe : p.1 = d := by simpa using hp
      rw [if_pos hp] at h
      rcases List.mem_cons.mp h with hc | hc
      · left
        rw [Prod.mk.injEq] at hc
        refine ⟨p.2, ?_, hc.2⟩
        rw [show ((d, p.2) : ℕ × ℕ) = (p.1, p.2) by rw [hpe]]
        exact List.mem_cons_self _ _
      · exfalso
        apply hnd.1
        rw [hpe]
        exact List.mem_map.mpr ⟨(d, v), hc, rfl⟩
    · have hpd : p.1 ≠ d := by simpa using hp
      rw [if_neg hp] at h
      rcases List.mem_cons.mp h with hc | hc
      · exact absurd (congrArg Prod.fst hc.symm) hpd
      · rcases ih hnd.2 hc with ⟨v0, hv0, he⟩ | ⟨h1, h2⟩
        · exact Or.inl ⟨v0, List.mem_cons_of_mem _ hv0, he⟩
        · refine Or.inr ⟨h1, ?_⟩
          rw [List.map_cons, List.mem_cons]
          rintro (hc2 | hc2)
          · exact hpd hc2.symm
          · exact h2 hc2

theorem bump_val_other {m : List (ℕ × ℕ)} {d : ℕ} {q : ℕ × ℕ}
    (h : q ∈ bump m d) (hq : q.1 ≠ d) : q ∈ m := by
  induction m with
  | nil =>
    simp [bump] at h
    exact absurd (congrArg Prod.fst h) (by simpa using hq)
  | cons p rest ih =>
    unfold bump at h
    by_cases hp : (p.1 == d) = true
    · have hpe : p.1 = d := by simpa using hp
      rw [if_pos hp] at h
      rcases List.mem_cons.mp h with hc | hc
      · exact absurd (by rw [hc, hpe]) hq
      · exact List.mem_cons_of_mem _ hc
    · rw [if_neg hp] at h
      rcases List.mem_cons.mp h with hc | hc
      · rw [hc]; exact List.mem_cons_self _ _
      · exact List.mem_cons_of_mem _ (ih hc)

theorem districtFold_keys_nodup (stations : List Station) (l : List ℕ) :
    ∀ m : List (ℕ × ℕ), (m.map Prod.fst).Nodup →
      ((l.foldl (districtStep stations) m).map Prod.fst).Nodup := by
  induction l with
  | nil => intro m hm; exact hm
  | cons sid rest ih =>
    intro m hm
    show ((rest.foldl (districtStep stations) (districtStep stations m sid)).map Prod.fst).Nodup
    apply ih
    unfold districtStep
    cases districtOf stations sid with
    | none => exact hm
    | some d => exact bump_keys_nodup d hm

theorem districtFold_keys_mem (stations : List Station) (l : List ℕ) :
    ∀ (m : List (ℕ × ℕ)) (e : ℕ),
      (e ∈ (l.foldl (districtStep stations) m).map Prod.fst ↔
        (e ∈ m.map Prod.fst ∨ ∃ sid ∈ l, districtOf stations sid = some e)) := by
  induction l with
  | nil => intro m e; simp
  | cons sid rest ih =>
    intro m e
    show e ∈ (rest.foldl (districtStep stations) (districtStep stations m sid)).map Prod.fst ↔ _
    rw [ih, List.exists_mem_cons_iff]
    cases hd : districtOf stations sid with
    | none =>
      simp only [districtStep, hd]
      constructor
      · rintro (hc | hc)
        · exact Or.inl hc
        · exact Or.inr (Or.inr hc)
      · rintro (hc | hc | hc)
        · exact Or.inl hc
        · exact absurd hc (by simp)
        · exact Or.inr hc
    | some d =>
      simp only [districtStep, hd]
      rw [bump_keys_mem]
      constructor
      · rintro ((hc | hc) | hc)
        · exact Or.inl hc
        · exact Or.inr (Or.inl (by rw [hc]))
        · exact Or.inr (Or.inr hc)
      · rintro (hc | hc | hc)
        · exact Or.inl (Or.inl hc)
        · exact Or.inl (Or.inr (by injection hc with hc; exact hc.symm))
        · exact Or.inr hc

theorem districtFold_val (stations : List Station) (l : List ℕ) :
    ∀ m : List (ℕ × ℕ), (m.map Prod.fst).Nodup →
      ∀ p ∈ l.foldl (districtStep stations) m,
        ∃ v0, ((p.1, v0) ∈ m ∨ (v0 = 0 ∧ p.1 ∉ m.map Prod.fst)) ∧
          p.2 = v0 + l.countP (fun sid => districtOf stations sid == some p.1) := by
  induction l with
  | nil =>
    intro m hm p hp
    exact ⟨p.2, Or.inl hp, by simp⟩
  | cons sid rest ih =>
    intro m hm p hp
    replace hp : p ∈ rest.foldl (districtStep stations) (districtStep stations m sid) := hp
    rw [List.countP_cons]
    cases hd : districtOf stations sid with
    | none =>
      simp only [districtStep, hd] at hp
      obtain ⟨v0, hv0, hval⟩ := ih m hm p hp
      refine ⟨v0, hv0, ?_⟩
      rw [show ((none : Option ℕ) == some p.1) = false from rfl]
      rw [hval]
      simp
    | some d =>
      simp only [districtStep, hd] at hp
      obtain ⟨v0', hv0', hval'⟩ := ih (bump m d) (bump_keys_nodup d hm) p hp
      by_cases hpd : p.1 = d
      · have hbeq : ((some d : Option ℕ) == some p.1) = true := by
          simp [hpd]
        rw [hbeq, if_pos rfl]
        rcases hv0' with hmem | ⟨hz, hnk⟩
        · rw [hpd] at hmem
          rcases bump_val_self hm hmem with ⟨v0, hv0m, hv0e⟩ | ⟨h1, hnk⟩
          · refine ⟨v0, Or.inl (by rw [hpd]; exact hv0m), ?_⟩
            rw [hval', hv0e]; omega
          · refine ⟨0, Or.inr ⟨rfl, by rw [hpd]; exact hnk⟩, ?_⟩
            rw [hval', h1]; omega
        · exfalso
          apply hnk
          rw [bump_keys_mem]
          exact Or.inr hpd
      · have hbeq : ((some d : Option ℕ) == some p.1) = false := by
          rw [beq_eq_false_iff_ne]
          exact fun hc => hpd (Option.some.inj hc).symm
        rw [hbeq, if_neg (by simp)]
        rcases hv0' with hmem | ⟨hz, hnk⟩
        · have hm2 : (p.1, v0') ∈ m := bump_val_other hmem hpd
          exact ⟨v0', Or.inl hm2, by rw [hval']; omega⟩
        · have hnm : p.1 ∉ m.map Prod.fst := by
            intro hc
            exact hnk (by rw [bump_keys_mem]; exact Or.inl hc)
          exact ⟨0, Or.inr ⟨rfl, hnm⟩, by rw [hval', hz]; omega⟩

theorem districtCounts_keys_nodup (stations : List Station) (l : List ℕ) :
    ((districtCounts stations l).map Prod.fst).Nodup :=
  districtFold_keys_nodup stations l [] (by simp)

theorem districtCounts_keys_mem (stations : List Station) (l : List ℕ) (e : ℕ) :
    e ∈ (districtCounts stations l).map Prod.fst ↔
      ∃ sid ∈ l, districtOf stations sid = some e := by
  unfold districtCounts
  rw [districtFold_keys_mem]
  simp

theorem districtCounts_val (stations : List Station) (l : List ℕ) :
    ∀ p ∈ districtCounts stations l,
      p.2 = l.countP (fun sid => districtOf stations sid == some p.1) := by
  intro p hp
  obtain ⟨v0, hv0, hval⟩ := districtFold_val stations l [] (by simp) p hp
  rcases hv0 with hc | ⟨hz, _⟩
  · exact absurd hc (by simp)
  · rw [hval, hz]; omega

theorem foldr_max_le (vs : List ℕ) (S : ℕ) (h : ∀ a ∈ vs, a ≤ S) :
    vs.foldr max 0 ≤ S := by
  induction vs with
  | nil => simp
  | cons v rest ih =>
    simp only [List.foldr_cons]
    exact max_le (h v (List.mem_cons_self _ _)) (ih fun a ha => h a (List.mem_cons_of_mem _ ha))

theorem le_foldr_max {vs : List ℕ} {a : ℕ} (h : a ∈ vs) : a ≤ vs.foldr max 0 := by
  induction vs with
  | nil => exact absurd h (List.not_mem_nil a)
  | cons v rest ih =>
    rcases List.mem_cons.mp h with rfl | hmem
    · exact le_max_left _ _
    · exact le_trans (ih hmem) (le_max_right _ _)

theorem countP_district_eq (stations : List Station) (l : List ℕ) (hl : l.Nodup) (dd : ℕ) :
    l.countP (fun sid => districtOf stations sid == some dd) =
      specDistrictCount stations l.toFinset dd := by
  unfold specDistrictCount
  rw [List.countP_eq_length_filter]
  rw [← List.toFinset_card_of_nodup (hl.filter _)]
  rw [List.toFinset_filter]
  congr 1
  apply Finset.filter_congr
  intro x _
  simp [beq_iff_eq]

theorem specDistricts_eq_keys (stations : List Station) (l : List ℕ) :
    ((districtCounts stations l).map Prod.fst).toFinset = specDistricts stations l.toFinset := by
  ext e
  rw [List.mem_toFinset, districtCounts_keys_mem]
  unfold specDistricts
  rw [Finset.mem_biUnion]
  constructor
  · rintro ⟨sid, hs, hd⟩
    exact ⟨sid, List.mem_toFinset.mpr hs, Option.mem_toFinset.mpr (Option.mem_def.mpr hd)⟩
  · rintro ⟨sid, hs, hd⟩
    exact ⟨sid, List.mem_toFinset.mp hs, Option.mem_def.mp (Option.mem_toFinset.mp hd)⟩

theorem computeRoundScore_PK (stations : List Station) (lid : ℕ) (LS : LineState) :
    (computeRoundScore stations lid LS).PK = (specDistricts stations LS.visited).card := by
  show (districtCounts stations (LS.visited.sort (· ≤ ·))).length = _
  rw [← List.length_map (districtCounts stations (LS.visited.sort (· ≤ ·))) Prod.fst]
  rw [← List.toFinset_card_of_nodup
    (districtCounts_keys_nodup stations (LS.visited.sort (· ≤ ·)))]
  rw [specDistricts_eq_keys, Finset.sort_toFinset]

theorem computeRoundScore_PM (stations : List Station) (lid : ℕ) (LS : LineState) :
    (computeRoundScore stations lid LS).PM =
      (specDistricts stations LS.visited).sup (specDistrictCount stations LS.visited) := by
  show (if (districtCounts stations (LS.visited.sort (· ≤ ·))).isEmpty then 0
    else ((districtCounts stations (LS.visited.sort (· ≤ ·))).map Prod.snd).foldr max 0) = _
  have hnodup : (LS.visited.sort (· ≤ ·)).Nodup := Finset.sort_nodup _ _
  have htf : (LS.visited.sort (· ≤ ·)).toFinset = LS.visited := Finset.sort_toFinset _ _
  by_cases hemp : (districtCounts stations (LS.visited.sort (· ≤ ·))).isEmpty
  · rw [if_pos hemp]
    rw [List.isEmpty_iff] at hemp
    have hds : specDistricts stations LS.visited = ∅ := by
      ext e
      simp only [Finset.not_mem_empty, iff_false]
      intro he
      unfold specDistricts at he
      rw [Finset.mem_biUnion] at he
      obtain ⟨sid, hs, hd⟩ := he
      have : e ∈ (districtCounts stations (LS.visited.sort (· ≤ ·))).map Prod.fst := by
        rw [districtCounts_keys_mem]
        refine ⟨sid, ?_, Option.mem_def.mp (Option.mem_toFinset.mp hd)⟩
        rw [Finset.mem_sort]
        exact hs
      rw [hemp] at this
      exact absurd this (by simp)
    rw [hds, Finset.sup_empty]
    rfl
  · rw [if_neg hemp]
    apply le_antisymm
    · apply foldr_max_le
      intro a ha
      rw [List.mem_map] at ha
      obtain ⟨p, hp, hpa⟩ := ha
      have hval := districtCounts_val stations _ p hp
      have hkey : p.1 ∈ (districtCounts stations (LS.visited.sort (· ≤ ·))).map Prod.fst :=
        List.mem_map.mpr ⟨p, hp, rfl⟩
      rw [districtCounts_keys_mem] at hkey
      have hmem : p.1 ∈ specDistricts stations LS.visited := by
        rw [← htf]
        unfold specDistricts
        rw [Finset.mem_biUnion]
        obtain ⟨sid, hs, hd⟩ := hkey
        exact ⟨sid, List.mem_toFinset.mpr hs, Option.mem_toFinset.mpr (Option.mem_def.mpr hd)⟩
      calc a = p.2 := hpa.symm
        _ = _ := hval
        _ = specDistrictCount stations LS.visited p.1 := by
              rw [countP_district_eq stations _ hnodup, htf]
        _ ≤ _ := Finset.le_sup hmem
    · apply Finset.sup_le
      intro d hd
      have hkey : d ∈ (districtCounts stations (LS.visited.sort (· ≤ ·))).map Prod.fst := by
        rw [districtCounts_keys_mem]
        rw [← htf] at hd
        unfold specDistricts at hd
        rw [Finset.mem_biUnion] at hd
        obtain ⟨sid, hs, hdd⟩ := hd
        exact ⟨sid, List.mem_toFinset.mp hs, Option.mem_def.mp (Option.mem_toFinset.mp hdd)⟩
      rw [List.mem_map] at hkey
      obtain ⟨p, hp, hpd⟩ := hkey
      have hval := districtCounts_val stations _ p hp
      have heq : specDistrictCount stations LS.visited d = p.2 := by
        rw [← hpd, hval, countP_district_eq stations _ hnodup, htf]
      rw [heq]
      exact le_foldr_max (List.mem_map.mpr ⟨p, hp, rfl⟩)

/-- C4: for every line build state the round score satisfies FP = PK*PM+PD,
where PK is the number of distinct districts among the visited stations
carrying district metadata, PM the largest number of visited stations in a
single district (0 when none carries metadata), and PD the number of placed
segments whose endpoints both carry river-bank metadata with differing
banks; the {3,1}-district, one-crossing example evaluates to PK=2, PM=3,
PD=1, FP=7. -/
theorem round_score_formula (stations : List Station) (lid : ℕ) (LS : LineState) :
    ((computeRoundScore stations lid LS).FP =
      (computeRoundScore stations lid LS).PK * (computeRoundScore stations lid LS).PM +
        (computeRoundScore stations lid LS).PD) ∧
    (computeRoundScore stations lid LS).PK = (specDistricts stations LS.visited).card ∧
    (computeRoundScore stations lid LS).PM =
      (specDistricts stations LS.visited).sup (specDistrictCount stations LS.visited) ∧
    (computeRoundScore stations lid LS).PD =
      LS.segments.countP (fun s => crossesRiver stations s) ∧
    ((computeRoundScore exStations 0 exLS).PK = 2 ∧
     (computeRoundScore exStations 0 exLS).PM = 3 ∧
     (computeRoundScore exStations 0 exLS).PD = 1 ∧
     (computeRoundScore exStations 0 exLS).FP = 7) := by
  have hPK : (computeRoundScore exStations 0 exLS).PK = 2 := by
    rw [computeRoundScore_PK]; decide
  have hPM : (computeRoundScore exStations 0 exLS).PM = 3 := by
    rw [computeRoundScore_PM]; decide
  have hPD : (computeRoundScore exStations 0 exLS).PD = 1 := by decide
  have hFP : (computeRoundScore exStations 0 exLS).FP = 7 := by
    have hsplit : (computeRoundScore exStations 0 exLS).FP =
        (computeRoundScore exStations 0 exLS).PK * (computeRoundScore exStations 0 exLS).PM +
          (computeRoundScore exStations 0 exLS).PD := rfl
    rw [hsplit, hPK, hPM, hPD]
  exact ⟨rfl, computeRoundScore_PK stations lid LS, computeRoundScore_PM stations lid LS,
    rfl, hPK, hPM, hPD, hFP⟩

theorem mem_touchedFold (ls : List (ℕ × LineState)) :
    ∀ (acc : Finset ℕ) (sid : ℕ),
      (sid ∈ ls.foldl (fun acc p => acc ∪ p.2.visited) acc ↔
        sid ∈ acc ∨ ∃ p ∈ ls, sid ∈ p.2.visited) := by
  induction ls with
  | nil => intro acc sid; simp
  | cons q rest ih =>
    intro acc sid
    show sid ∈ rest.foldl _ (acc ∪ q.2.visited) ↔ _
    rw [ih, List.exists_mem_cons_iff, Finset.mem_union]
    tauto

theorem mem_trainFold (stations : List Station) (ls : List (ℕ × LineState)) :
    ∀ (acc : Finset ℕ) (sid : ℕ),
      (sid ∈ ls.foldl (fun acc p =>
          acc ∪ p.2.visited.filter (fun sid => isTrainStation stations sid)) acc ↔
        sid ∈ acc ∨ ∃ p ∈ ls, sid ∈ p.2.visited ∧ isTrainStation stations sid = true) := by
  induction ls with
  | nil => intro acc sid; simp
  | cons q rest ih =>
    intro acc sid
    show sid ∈ rest.foldl _ (acc ∪ _) ↔ _
    rw [ih, List.exists_mem_cons_iff, Finset.mem_union, Finset.mem_filter]
    tauto

theorem trainVisited_eq (stations : List Station) (ls : List (ℕ × LineState)) :
    trainVisited stations ls =
      (touchedStations ls).filter (fun sid => isTrainStation stations sid) := by
  ext sid
  unfold trainVisited touchedStations
  rw [mem_trainFold, Finset.mem_filter, mem_touchedFold]
  simp only [Finset.not_mem_empty, false_or]
  constructor
  · rintro ⟨p, hp, hv, ht⟩
    exact ⟨⟨p, hp, hv⟩, ht⟩
  · rintro ⟨⟨p, hp, hv⟩, ht⟩
    exact ⟨p, hp, hv, ht⟩

theorem mem_linesFold (ls : List (ℕ × LineState)) (sid : ℕ) :
    ∀ (acc : Finset ℕ) (e : ℕ),
      (e ∈ ls.foldl (fun acc p => if sid ∈ p.2.visited then insert p.1 acc else acc) acc ↔
        e ∈ acc ∨ ∃ p ∈ ls, sid ∈ p.2.visited ∧ e = p.1) := by
  induction ls with
  | nil => intro acc e; simp
  | cons q rest ih =>
    intro acc e
    show e ∈ rest.foldl _ (if sid ∈ q.2.visited then insert q.1 acc else acc) ↔ _
    rw [ih, List.exists_mem_cons_iff]
    by_cases hq : sid ∈ q.2.visited
    · rw [if_pos hq, Finset.mem_insert]
      tauto
    · rw [if_neg hq]
      tauto

theorem linesVisitingF_eq (ls : List (ℕ × LineState)) (sid : ℕ) :
    linesVisitingF ls sid = specLinesVisiting ls sid := by
  ext e
  unfold linesVisitingF specLinesVisiting
  rw [mem_linesFold]
  simp only [Finset.not_mem_empty, false_or, List.mem_toFinset, List.mem_map,
    List.mem_filter, decide_eq_true_eq]
  constructor
  · rintro ⟨p, hp, hv, he⟩
    exact ⟨p, ⟨hp, hv⟩, he.symm⟩
  · rintro ⟨p, ⟨hp, hv⟩, he⟩
    exact ⟨p, hp, hv, he.symm⟩

/-- C3: at game end, with PP the number of distinct train-hub stations
visited by any line and each multi-line station classified by the number
of distinct lines that visited it (exactly 2 toward P2, exactly 3 toward
P3, 4 or more toward P4), the final score equals the sum of FP over all
recorded rounds plus PP + 2*P2 + 5*P3 + 9*P4. -/
theorem finish_score_formula (stations : List Station) (g : GameState) :
    finishScore stations g =
      (g.roundResults.map RoundResult.FP).sum + specPP stations g.lineStates +
        2 * specP2 g.lineStates + 5 * specP3 g.lineStates + 9 * specP4 g.lineStates := by
  unfold finishScore specPP specP2 specP3 specP4
  rw [trainVisited_eq]
  simp only [linesVisitingF_eq]
  rw [Finset.card_filter, Finset.card_filter, Finset.card_filter, Finset.card_filter]

/-! ### Geometry of segmentsIntersect -/

theorem cross_self_left (u v : Pt) : cross u v u = 0 := by
  unfold cross; ring

theorem cross_self_right (u v : Pt) : cross u v v = 0 := by
  unfold cross; ring

theorem onSeg_self_left (u v : Pt) : onSeg u u v = true := by
  simp only [onSeg, Bool.and_eq_true, decide_eq_true_eq]
  omega

theorem onSeg_self_right (u v : Pt) : onSeg u v v = true := by
  simp only [onSeg, Bool.and_eq_true, decide_eq_true_eq]
  omega

theorem segmentsIntersect_of_d1 {a1 a2 b1 b2 : Pt}
    (h1 : cross a1 a2 b1 = 0) (h2 : onSeg a1 b1 a2 = true) :
    segmentsIntersect a1 a2 b1 b2 = true := by
  unfold segmentsIntersect
  simp [h1, h2]

theorem segmentsIntersect_of_d2 {a1 a2 b1 b2 : Pt}
    (h1 : cross a1 a2 b2 = 0) (h2 : onSeg a1 b2 a2 = true) :
    segmentsIntersect a1 a2 b1 b2 = true := by
  unfold segmentsIntersect
  simp [h1, h2]

theorem segmentsIntersect_of_d3 {a1 a2 b1 b2 : Pt}
    (h1 : cross b1 b2 a1 = 0) (h2 : onSeg b1 a1 b2 = true) :
    segmentsIntersect a1 a2 b1 b2 = true := by
  unfold segmentsIntersect
  simp [h1, h2]

theorem segmentsIntersect_of_d4 {a1 a2 b1 b2 : Pt}
    (h1 : cross b1 b2 a2 = 0) (h2 : onSeg b1 a2 b2 = true) :
    segmentsIntersect a1 a2 b1 b2 = true := by
  unfold segmentsIntersect
  simp [h1, h2]

/-- A point on a degenerate (single-point) segment is that point. -/
theorem PtOnSeg_single {p u : Pt} (h : PtOnSeg p u u) : p = u := by
  obtain ⟨_, hb⟩ := h
  simp only [onSeg, Bool.and_eq_true, decide_eq_true_eq] at hb
  ext <;> omega

/-- Two vectors both parallel to a nonzero vector are parallel to each
other. -/
theorem cross_vanish (ux uy vx vy wx wy : ℤ) (hu : ux ≠ 0 ∨ uy ≠ 0)
    (h1 : vx * uy - vy * ux = 0) (h2 : wx * uy - wy * ux = 0) :
    vx * wy - vy * wx = 0 := by
  have h3 : ux * (vx * wy - vy * wx) = 0 := by linear_combination wx * h1 - vx * h2
  have h4 : uy * (vx * wy - vy * wx) = 0 := by linear_combination wy * h1 - vy * h2
  rcases hu with h | h
  · rcases mul_eq_zero.mp h3 with hc | hc
    · exact absurd hc h
    · exact hc
  · rcases mul_eq_zero.mp h4 with hc | hc
    · exact absurd hc h
    · exact hc

/-- Unordered betweenness of integers as a sign condition on a product. -/
theorem btw_iff_prod (u t v : ℤ) :
    (min u v ≤ t ∧ t ≤ max u v) ↔ 0 ≤ (t - u) * (v - t) := by
  rcases le_total u v with h | h
  · rw [min_eq_left h, max_eq_right h]
    constructor
    · rintro ⟨h1, h2⟩
      exact mul_nonneg (by omega) (by omega)
    · intro hp
      constructor <;> nlinarith
  · rw [min_eq_right h, max_eq_left h]
    constructor
    · rintro ⟨h1, h2⟩
      nlinarith
    · intro hp
      constructor <;> nlinarith

/-- For collinear points, bounding-box membership is equivalent to
betweenness of the dot products with the direction vector. -/
theorem btw_iff_lambda (dx dy ux uy vx vy tx ty : ℤ) (hd : dx ≠ 0 ∨ dy ≠ 0)
    (hut : dx * (ty - uy) - dy * (tx - ux) = 0)
    (huv : dx * (vy - uy) - dy * (vx - ux) = 0) :
    ((min ux vx ≤ tx ∧ tx ≤ max ux vx) ∧ (min uy vy ≤ ty ∧ ty ≤ max uy vy)) ↔
    (min (dx * ux + dy * uy) (dx * vx + dy * vy) ≤ dx * tx + dy * ty ∧
      dx * tx + dy * ty ≤ max (dx * ux + dy * uy) (dx * vx + dy * vy)) := by
  have hN : 0 < dx ^ 2 + dy ^ 2 := by
    rcases hd with h | h <;> rcases h.lt_or_lt with h2 | h2 <;> nlinarith [sq_nonneg dx, sq_nonneg dy]
  have hvt : dx * (vy - ty) - dy * (vx - tx) = 0 := by linear_combination huv - hut
  have hx1 : (dx ^ 2 + dy ^ 2) * (tx - ux) =
      dx * ((dx * tx + dy * ty) - (dx * ux + dy * uy)) := by
    linear_combination (-dy) * hut
  have hy1 : (dx ^ 2 + dy ^ 2) * (ty - uy) =
      dy * ((dx * tx + dy * ty) - (dx * ux + dy * uy)) := by
    linear_combination dx * hut
  have hx2 : (dx ^ 2 + dy ^ 2) * (vx - tx) =
      dx * ((dx * vx + dy * vy) - (dx * tx + dy * ty)) := by
    linear_combination (-dy) * hvt
  have hy2 : (dx ^ 2 + dy ^ 2) * (vy - ty) =
      dy * ((dx * vx + dy * vy) - (dx * tx + dy * ty)) := by
    linear_combination dx * hvt
  have hxx : (dx ^ 2 + dy ^ 2) ^ 2 * ((tx - ux) * (vx - tx)) =
      dx ^ 2 * (((dx * tx + dy * ty) - (dx * ux + dy * uy)) *
        ((dx * vx + dy * vy) - (dx * tx + dy * ty))) := by
    linear_combination (dx * ((dx * vx + dy * vy) - (dx * tx + dy * ty))) * hx1 +
      ((dx ^ 2 + dy ^ 2) * (tx - ux)) * hx2
  have hyy : (dx ^ 2 + dy ^ 2) ^ 2 * ((ty - uy) * (vy - ty)) =
      dy ^ 2 * (((dx * tx + dy * ty) - (dx * ux + dy * uy)) *
        ((dx * vx + dy * vy) - (dx * tx + dy * ty))) := by
    linear_combination (dy * ((dx * vx + dy * vy) - (dx * tx + dy * ty))) * hy1 +
      ((dx ^ 2 + dy ^ 2) * (ty - uy)) * hy2
  rw [btw_iff_prod, btw_iff_prod, btw_iff_prod]
  have hsum : (dx ^ 2 + dy ^ 2) ^ 2 *
      ((tx - ux) * (vx - tx) + (ty - uy) * (vy - ty)) =
      (dx ^ 2 + dy ^ 2) * (((dx * tx + dy * ty) - (dx * ux + dy * uy)) *
        ((dx * vx + dy * vy) - (dx * tx + dy * ty))) := by
    linear_combination hxx + hyy
  constructor
  · rintro ⟨hpx, hpy⟩
    by_contra hneg
    push_neg at hneg
    have h1 : 0 ≤ (dx ^ 2 + dy ^ 2) ^ 2 *
        ((tx - ux) * (vx - tx) + (ty - uy) * (vy - ty)) :=
      mul_nonneg (sq_nonneg _) (add_nonneg hpx hpy)
    rw [hsum] at h1
    have h2 := mul_neg_of_pos_of_neg hN hneg
    linarith
  · intro hL
    constructor
    · by_contra hneg
      push_neg at hneg
      have h1 : 0 ≤ dx ^ 2 * (((dx * tx + dy * ty) - (dx * ux + dy * uy)) *
          ((dx * vx + dy * vy) - (dx * tx + dy * ty))) :=
        mul_nonneg (sq_nonneg _) hL
      rw [← hxx] at h1
      have h2 := mul_neg_of_pos_of_neg (pow_pos hN 2) hneg
      linarith
    · by_contra hneg
      push_neg at hneg
      have h1 : 0 ≤ dy ^ 2 * (((dx * tx + dy * ty) - (dx * ux + dy * uy)) *
          ((dx * vx + dy * vy) - (dx * tx + dy * ty))) :=
        mul_nonneg (sq_nonneg _) hL
      rw [← hyy] at h1
      have h2 := mul_neg_of_pos_of_neg (pow_pos hN 2) hneg
      linarith

/-- One-dimensional fact: two intervals sharing a point must contain an
endpoint of each other. -/
theorem oneD_endpoint_between (x1 x2 y1 y2 z : ℤ)
    (h1 : min x1 x2 ≤ z ∧ z ≤ max x1 x2) (h2 : min y1 y2 ≤ z ∧ z ≤ max y1 y2) :
    (min x1 x2 ≤ y1 ∧ y1 ≤ max x1 x2) ∨ (min x1 x2 ≤ y2 ∧ y2 ≤ max x1 x2) ∨
    (min y1 y2 ≤ x1 ∧ x1 ≤ max y1 y2) ∨ (min y1 y2 ≤ x2 ∧ x2 ≤ max y1 y2) := by
  omega

/-- Segments sharing an endpoint coordinate are always reported as
intersecting by segmentsIntersect (the shared point makes one of the
collinear bounding-box checks fire). -/
theorem segmentsIntersect_of_shared_endpoint (a1 a2 b1 b2 : Pt)
    (h : a2 = b1 ∨ a1 = b1 ∨ a2 = b2 ∨ a1 = b2) :
    segmentsIntersect a1 a2 b1 b2 = true := by
  rcases h with rfl | rfl | rfl | rfl
  · exact segmentsIntersect_of_d1 (cross_self_right a1 a2) (onSeg_self_right a1 a2)
  · exact segmentsIntersect_of_d1 (cross_self_left a1 a2) (onSeg_self_left a1 a2)
  · exact segmentsIntersect_of_d2 (cross_self_right a1 a2) (onSeg_self_right a1 a2)
  · exact segmentsIntersect_of_d2 (cross_self_left a1 a2) (onSeg_self_left a1 a2)

/-- Collinearly overlapping segments (more than one common point) are
always reported as intersecting by segmentsIntersect. -/
theorem segmentsIntersect_of_overlap (a1 a2 b1 b2 : Pt)
    (h : SegOverlapCollinear a1 a2 b1 b2) :
    segmentsIntersect a1 a2 b1 b2 = true := by
  obtain ⟨p, q, hpq, hpa, hqa, hpb, hqb⟩ := h
  have hA : a1 ≠ a2 := by
    intro hc
    subst hc
    exact hpq ((PtOnSeg_single hpa).trans (PtOnSeg_single hqa).symm)
  have hB : b1 ≠ b2 := by
    intro hc
    subst hc
    exact hpq ((PtOnSeg_single hpb).trans (PtOnSeg_single hqb).symm)
  obtain ⟨hpac, hpab⟩ := hpa
  obtain ⟨hqac, hqab⟩ := hqa
  obtain ⟨hpbc, hpbb⟩ := hpb
  obtain ⟨hqbc, hqbb⟩ := hqb
  simp only [cross] at hpac hqac hpbc hqbc
  simp only [onSeg, Bool.and_eq_true, decide_eq_true_eq] at hpab hpbb
  have hd : a2.x - a1.x ≠ 0 ∨ a2.y - a1.y ≠ 0 := by
    by_contra hc
    push_neg at hc
    exact hA (Pt.ext (by omega) (by omega))
  have he : b2.x - b1.x ≠ 0 ∨ b2.y - b1.y ≠ 0 := by
    by_contra hc
    push_neg at hc
    exact hB (Pt.ext (by omega) (by omega))
  have hu : q.x - p.x ≠ 0 ∨ q.y - p.y ≠ 0 := by
    by_contra hc
    push_neg at hc
    exact hpq (Pt.ext (by omega) (by omega))
  have F1 : (a2.x - a1.x) * (q.y - p.y) - (a2.y - a1.y) * (q.x - p.x) = 0 := by
    linear_combination hqac - hpac
  have F2 : (b2.x - b1.x) * (q.y - p.y) - (b2.y - b1.y) * (q.x - p.x) = 0 := by
    linear_combination hqbc - hpbc
  have G1 : (p.x - b1.x) * (q.y - p.y) - (p.y - b1.y) * (q.x - p.x) = 0 :=
    cross_vanish (b2.x - b1.x) (b2.y - b1.y) (p.x - b1.x) (p.y - b1.y)
      (q.x - p.x) (q.y - p.y) he (by linear_combination -hpbc) (by linear_combination -F2)
  have F5 : (a2.x - a1.x) * (p.y - b1.y) - (a2.y - a1.y) * (p.x - b1.x) = 0 :=
    cross_vanish (q.x - p.x) (q.y - p.y) (a2.x - a1.x) (a2.y - a1.y)
      (p.x - b1.x) (p.y - b1.y) hu F1 G1
  have F6 : (a2.x - a1.x) * (b2.y - b1.y) - (a2.y - a1.y) * (b2.x - b1.x) = 0 :=
    cross_vanish (q.x - p.x) (q.y - p.y) (a2.x - a1.x) (a2.y - a1.y)
      (b2.x - b1.x) (b2.y - b1.y) hu F1 F2
  have G2 : (p.x - a1.x) * (q.y - p.y) - (p.y - a1.y) * (q.x - p.x) = 0 :=
    cross_vanish (a2.x - a1.x) (a2.y - a1.y) (p.x - a1.x) (p.y - a1.y)
      (q.x - p.x) (q.y - p.y) hd (by linear_combination -hpac) (by linear_combination -F1)
  have F10 : (b2.x - b1.x) * (p.y - a1.y) - (b2.y - b1.y) * (p.x - a1.x) = 0 :=
    cross_vanish (q.x - p.x) (q.y - p.y) (b2.x - b1.x) (b2.y - b1.y)
      (p.x - a1.x) (p.y - a1.y) hu F2 G2
  have D1 : (a2.x - a1.x) * (b1.y - a1.y) - (a2.y - a1.y) * (b1.x - a1.x) = 0 := by
    linear_combination hpac - F5
  have D2 : (a2.x - a1.x) * (b2.y - a1.y) - (a2.y - a1.y) * (b2.x - a1.x) = 0 := by
    linear_combination hpac - F5 + F6
  have D3 : (b2.x - b1.x) * (a1.y - b1.y) - (b2.y - b1.y) * (a1.x - b1.x) = 0 := by
    linear_combination hpbc - F10
  have D4 : (b2.x - b1.x) * (a2.y - b1.y) - (b2.y - b1.y) * (a2.x - b1.x) = 0 := by
    linear_combination hpbc - F10 - F6
  have hp_a := (btw_iff_lambda (a2.x - a1.x) (a2.y - a1.y) a1.x a1.y a2.x a2.y p.x p.y hd
    (by linear_combination hpac) (by ring)).mp (by tauto)
  have hp_b := (btw_iff_lambda (a2.x - a1.x) (a2.y - a1.y) b1.x b1.y b2.x b2.y p.x p.y hd
    (by linear_combination F5) (by linear_combination F6)).mp (by tauto)
  rcases oneD_endpoint_between _ _ _ _ _ hp_a hp_b with hc | hc | hc | hc
  · have hbox := (btw_iff_lambda (a2.x - a1.x) (a2.y - a1.y) a1.x a1.y a2.x a2.y b1.x b1.y hd
      (by linear_combination D1) (by ring)).mpr hc
    refine segmentsIntersect_of_d1 (by simp only [cross]; linear_combination D1) ?_
    simp only [onSeg, Bool.and_eq_true, decide_eq_true_eq]
    tauto
  · have hbox := (btw_iff_lambda (a2.x - a1.x) (a2.y - a1.y) a1.x a1.y a2.x a2.y b2.x b2.y hd
      (by linear_combination D2) (by ring)).mpr hc
    refine segmentsIntersect_of_d2 (by simp only [cross]; linear_combination D2) ?_
    simp only [onSeg, Bool.and_eq_true, decide_eq_true_eq]
    tauto
  · have hbox := (btw_iff_lambda (a2.x - a1.x) (a2.y - a1.y) b1.x b1.y b2.x b2.y a1.x a1.y hd
      (by linear_combination -D1) (by linear_combination F6)).mpr hc
    refine segmentsIntersect_of_d3 (by simp only [cross]; linear_combination D3) ?_
    simp only [onSeg, Bool.and_eq_true, decide_eq_true_eq]
    tauto
  · have hbox := (btw_iff_lambda (a2.x - a1.x) (a2.y - a1.y) b1.x b1.y b2.x b2.y a2.x a2.y hd
      (by linear_combination -D1) (by linear_combination F6)).mpr hc
    refine segmentsIntersect_of_d4 (by simp only [cross]; linear_combination D4) ?_
    simp only [onSeg, Bool.and_eq_true, decide_eq_true_eq]
    tauto

/-- C6 counterexample: two segments meeting only at the shared endpoint
(1, 1), which is an endpoint of both, on which segmentsIntersect returns
true, not false: the shared-endpoint exemption lives in canConnect's id
comparison, not in the predicate. -/
theorem segmentsIntersect_true_on_touching :
    (∀ p : Pt, PtOnSeg p ⟨0, 0⟩ ⟨1, 1⟩ → PtOnSeg p ⟨1, 1⟩ ⟨2, 0⟩ → p = ⟨1, 1⟩) ∧
    segmentsIntersect ⟨0, 0⟩ ⟨1, 1⟩ ⟨1, 1⟩ ⟨2, 0⟩ = true := by
  constructor
  · rintro ⟨px, py⟩ ⟨hc1, hb1⟩ ⟨hc2, hb2⟩
    simp only [cross] at hc1 hc2
    simp only [onSeg, Bool.and_eq_true, decide_eq_true_eq] at hb1 hb2
    rw [Pt.mk.injEq]
    constructor <;> omega
  · decide

/-- C6 (amended): segments that merely touch at a shared endpoint ARE
reported as intersecting by segmentsIntersect (true, not false) - the
shared-endpoint exemption is implemented by canConnect's station-id
comparison, not inside the predicate - and collinearly overlapping
segments are also reported as intersecting. -/
theorem segmentsIntersect_shared_or_overlap :
    (∀ a1 a2 b1 b2 : Pt, (a2 = b1 ∨ a1 = b1 ∨ a2 = b2 ∨ a1 = b2) →
      segmentsIntersect a1 a2 b1 b2 = true) ∧
    (∀ a1 a2 b1 b2 : Pt, SegOverlapCollinear a1 a2 b1 b2 →
      segmentsIntersect a1 a2 b1 b2 = true) :=
  ⟨segmentsIntersect_of_shared_endpoint, segmentsIntersect_of_overlap⟩

/-- Witness for C6's amended statement at concrete segments: a touching
pair and a collinearly overlapping pair. -/
theorem segmentsIntersect_shared_or_overlap_witness :
    segmentsIntersect ⟨0, 0⟩ ⟨1, 1⟩ ⟨1, 1⟩ ⟨2, 0⟩ = true ∧
    segmentsIntersect ⟨0, 0⟩ ⟨3, 0⟩ ⟨1, 0⟩ ⟨5, 0⟩ = true :=
  ⟨segmentsIntersect_shared_or_overlap.1 _ _ _ _ (Or.inl rfl),
   segmentsIntersect_shared_or_overlap.2 _ _ _ _
     ⟨⟨1, 0⟩, ⟨3, 0⟩, by decide, ⟨by decide, by decide⟩, ⟨by decide, by decide⟩,
       ⟨by decide, by decide⟩, ⟨by decide, by decide⟩⟩⟩

end BudapestMetro
